import Mathlib

/-!
Verification development for the AbstractVM stack machine (C++ sources under
`srcs/` and `include/`).  The embedding below translates the numeric pipeline
(`Operand.tpp`, `OperandFactory.cpp`), the command set (`Commands.cpp`), the
lexer (`Lexer.cpp`), the parser (`Parser.cpp`) and the execution engine
(`VirtualMachine.cpp`) into executable Lean definitions and proves the
specification claims against them.

Modelling conventions:
* C++ `long double` (x87 extended, 64-bit significand), `double` (binary64)
  and `float` (binary32) values are represented as exact rationals; every
  operation rounds with round-to-nearest, ties-to-even at the format's
  precision (`roundFP`), with gradual underflow at the format's minimum
  exponent.  The model treats the extended format as having unbounded upper
  exponent range; no value near the extended format's huge overflow threshold
  arises in any claim.
* `std::stold` is modelled on decimal literals (optional sign, digits,
  optional fraction, optional decimal exponent) — the only numeric text forms
  produced by the lexer's number tokens and by the program's own renderings
  (`valueToString`, `std::to_string`).
* Output to `std::cout` is modelled as a list of characters.
* Error objects carry the same message strings the C++ exceptions are
  constructed with; the run is modelled in the default fail-fast
  configuration (`collectErrors = false`), which is the mode the claims
  address.
-/

namespace AbstractVM

/-! ## Auxiliary integer functions (fuel-based so the kernel can evaluate) -/

/-- Floor of the base-2 logarithm, fuel-based structural recursion. -/
def log2fuel : Nat → Nat → Nat
  | 0, _ => 0
  | f + 1, n => if n < 2 then 0 else log2fuel f (n / 2) + 1

/-- Floor of the base-2 logarithm of a natural number (0 for 0). -/
def nlog2 (n : Nat) : Nat := log2fuel n n

/-- `(b : ℚ) ^ e` for an integer exponent, computed through `ℕ` powers so the
kernel evaluates it with binary natural-number arithmetic. -/
def ipowQ (b : ℕ) (e : ℤ) : ℚ :=
  if 0 ≤ e then ((b ^ e.toNat : ℕ) : ℚ) else (((b ^ (-e).toNat : ℕ) : ℚ))⁻¹

/-- Round a rational to the nearest integer, ties to even.  This is the
rounding used by the x87/IEEE formats and by glibc's correctly rounded
`printf` conversions. -/
def rneInt (q : ℚ) : ℤ :=
  if q - ⌊q⌋ < 1 / 2 then ⌊q⌋
  else if 1 / 2 < q - ⌊q⌋ then ⌊q⌋ + 1
  else if ⌊q⌋ % 2 = 0 then ⌊q⌋ else ⌊q⌋ + 1

/-- Truncation toward zero, the C++ float-to-integer conversion. -/
def ratTrunc (q : ℚ) : ℤ := if 0 ≤ q then ⌊q⌋ else ⌈q⌉

/-- First guess for the binary magnitude of `q`, from bit lengths. -/
def ilog2Guess (q : ℚ) : ℤ := (nlog2 q.num.natAbs : ℤ) - (nlog2 q.den : ℤ)

/-- The integer `e` with `2 ^ e ≤ |q| < 2 ^ (e + 1)` (garbage for `q = 0`). -/
def ilog2 (q : ℚ) : ℤ :=
  if ipowQ 2 (ilog2Guess q + 1) ≤ |q| then ilog2Guess q + 1
  else if ipowQ 2 (ilog2Guess q) ≤ |q| then ilog2Guess q
  else ilog2Guess q - 1

/-- The exponent of the unit in the last place at which a format of `prec`
significant bits and minimum ulp exponent `emin` resolves `q`. -/
def ulpExp (prec : Nat) (emin : ℤ) (q : ℚ) : ℤ :=
  max (ilog2 q - ((prec : ℤ) - 1)) emin

/-- Round-to-nearest, ties-to-even at `prec` significant bits with gradual
underflow below an ulp exponent of `emin` (and unbounded exponent above).
`roundFP 64 (-16445)` is the x87 extended format of C++ `long double`,
`roundFP 53 (-1074)` is binary64 (`double`), `roundFP 24 (-149)` is binary32
(`float`). -/
def roundFP (prec : Nat) (emin : ℤ) (q : ℚ) : ℚ :=
  if q = 0 then 0
  else (rneInt (q / ipowQ 2 (ulpExp prec emin q)) : ℚ) * ipowQ 2 (ulpExp prec emin q)

/-- Rounding of C++ `long double` (x87 80-bit extended). -/
def roundLD (q : ℚ) : ℚ := roundFP 64 (-16445) q

/-! ## Decimal text: printing and parsing

`valueToString` (Operand.tpp) renders integer kinds through
`oss << static_cast<int64_t>(value)` and floating kinds through
`oss << std::setprecision(digits10 + 1) << value` (`%g` style);
`std::to_string(long double)` is `%Lf` (fixed, six decimals); both glibc
conversions are correctly rounded with ties to even. -/

/-- Decimal digit character for `n < 10`. -/
def digitChar (n : Nat) : Char := Char.ofNat (48 + n)

/-- Big-endian decimal digits of a natural number, fuel-based. -/
def natDigitsAux : Nat → Nat → List Char
  | 0, _ => []
  | f + 1, n =>
    if n < 10 then [digitChar n]
    else natDigitsAux f (n / 10) ++ [digitChar (n % 10)]

/-- Decimal rendering of a natural number. -/
def natToDecString (n : Nat) : String := ⟨natDigitsAux (n + 1) n⟩

/-- Decimal rendering of an integer, as `operator<<(int64_t)` renders it. -/
def intToDecString (i : ℤ) : String :=
  if i < 0 then "-" ++ natToDecString i.natAbs else natToDecString i.natAbs

/-- Greedy run of decimal digits: returns accumulated value, count of digits
consumed, and the remaining characters. -/
def parseDigitsAux : List Char → Nat → Nat → Nat × Nat × List Char
  | [], acc, cnt => (acc, cnt, [])
  | c :: cs, acc, cnt =>
    if '0' ≤ c ∧ c ≤ '9' then
      parseDigitsAux cs (acc * 10 + (c.toNat - 48)) (cnt + 1)
    else (acc, cnt, c :: cs)

/-- Leading-sign split of a numeric literal: the sign factor and the
characters after the sign. -/
def signSplit (cs : List Char) : ℚ × List Char :=
  match cs with
  | [] => (1, [])
  | c :: r => if c = '-' then (-1, r) else if c = '+' then (1, r) else (1, c :: r)

/-- Leading-sign split of an exponent field. -/
def signSplitZ (cs : List Char) : ℤ × List Char :=
  match cs with
  | [] => (1, [])
  | c :: r => if c = '-' then (-1, r) else if c = '+' then (1, r) else (1, c :: r)

/-- Exact rational value of a decimal literal
`[+|-] digits [. digits] [(e|E) [+|-] digits]` (at least one mantissa digit);
`none` if the text is not of this form.  This is the decimal fragment of
`std::stold`'s accepted syntax — the only numeric texts produced by the
lexer's number tokens and by the program's own renderings. -/
def parseDecChars (cs : List Char) : Option ℚ :=
  let sp := signSplit cs
  let ipr := parseDigitsAux sp.2 0 0
  let fpr : Nat × Nat × List Char :=
    match ipr.2.2 with
    | [] => (0, 0, [])
    | c :: r => if c = '.' then parseDigitsAux r 0 0 else (0, 0, c :: r)
  if ipr.2.1 = 0 ∧ fpr.2.1 = 0 then none
  else
    let mant : ℚ := (ipr.1 : ℚ) + (fpr.1 : ℚ) / ((10 ^ fpr.2.1 : ℕ) : ℚ)
    match fpr.2.2 with
    | [] => some (sp.1 * mant)
    | c :: r =>
      if c = 'e' ∨ c = 'E' then
        let esp := signSplitZ r
        let epr := parseDigitsAux esp.2 0 0
        if epr.2.1 = 0 ∨ epr.2.2 ≠ [] then none
        else some (sp.1 * mant * ipowQ 10 (esp.1 * (epr.1 : ℤ)))
      else none

/-- Exact rational value of a decimal literal string. -/
def parseDec (s : String) : Option ℚ := parseDecChars s.data

/-- The `long double` value `std::stold` produces for a decimal literal. -/
def stoldQ (s : String) : Option ℚ := (parseDec s).map roundLD

/-- `std::stoi`, as used by `PrintCommand` on the canonical text of an `Int8`
operand (always a plain optionally-signed integer literal in range). -/
def stoiInt (s : String) : ℤ :=
  match s.data with
  | [] => 0
  | c :: r =>
    if c = '-' then -((parseDigitsAux r 0 0).1 : ℤ)
    else if c = '+' then ((parseDigitsAux r 0 0).1 : ℤ)
    else ((parseDigitsAux (c :: r) 0 0).1 : ℤ)

/-- Zero-padded six-digit fractional field of `%Lf`. -/
def padFrac6 (f : Nat) : String :=
  let s := natToDecString f
  ⟨List.replicate (6 - s.length) '0'⟩ ++ s

/-- `std::to_string` on a `long double`: `%Lf`, fixed notation with six
decimals, correctly rounded (ties to even). -/
def cppToStringLD (q : ℚ) : String :=
  (if q < 0 then "-" else "") ++
    natToDecString ((rneInt (q * 1000000)).natAbs / 1000000) ++ "." ++
    padFrac6 ((rneInt (q * 1000000)).natAbs % 1000000)

/-- The integer `e` with `10 ^ e ≤ |q| < 10 ^ (e + 1)` (garbage for `q = 0`),
computed from decimal digit counts. -/
def ilog10 (q : ℚ) : ℤ :=
  let g : ℤ := ((natDigitsAux (q.num.natAbs + 1) q.num.natAbs).length : ℤ) -
    ((natDigitsAux (q.den + 1) q.den).length : ℤ)
  if ipowQ 10 (g + 1) ≤ |q| then g + 1
  else if ipowQ 10 g ≤ |q| then g
  else g - 1

/-- Remove trailing decimal zeros from a positive significand. -/
def stripZeros : Nat → Nat → Nat
  | 0, m => m
  | f + 1, m => if m ≠ 0 ∧ m % 10 = 0 then stripZeros f (m / 10) else m

/-- Minimum-two-digit exponent field of `%g`/`%e`. -/
def expField (e : ℤ) : String :=
  let s := natToDecString e.natAbs
  (if e < 0 then "-" else "+") ++ (if e.natAbs < 10 then "0" ++ s else s)

/-- glibc `%g` with `prec` significant digits (the `defaultfloat` rendering of
`oss << std::setprecision(prec) << value`): correctly rounded to `prec`
significant digits, trailing zeros removed, scientific notation iff the
decimal exponent is `< -4` or `≥ prec`. -/
def fmtG (prec : Nat) (q : ℚ) : String :=
  if q = 0 then "0"
  else
    let sgn := if q < 0 then "-" else ""
    let a := |q|
    let e0 := ilog10 a
    let m0 := (rneInt (a / ipowQ 10 (e0 - (prec : ℤ) + 1))).natAbs
    let (m1, e1) := if m0 = 10 ^ prec then (10 ^ (prec - 1), e0 + 1) else (m0, e0)
    let m := stripZeros prec m1
    let ds := natDigitsAux (m + 1) m
    if e1 < -4 ∨ (prec : ℤ) ≤ e1 then
      -- scientific: d[.ddd]e±XX
      sgn ++ ⟨ds.take 1⟩ ++ (if ds.length ≤ 1 then "" else "." ++ ⟨ds.drop 1⟩) ++
        "e" ++ expField e1
    else if 0 ≤ e1 then
      -- fixed, integer part has e1+1 digits
      if (ds.length : ℤ) ≤ e1 + 1 then
        sgn ++ ⟨ds⟩ ++ ⟨List.replicate (e1 + 1 - ds.length).toNat '0'⟩
      else
        sgn ++ ⟨ds.take (e1 + 1).toNat⟩ ++ "." ++ ⟨ds.drop (e1 + 1).toNat⟩
    else
      sgn ++ "0." ++ ⟨List.replicate (-e1 - 1).toNat '0'⟩ ++ ⟨ds⟩

/-! ## Operand type system (`eOperandType.hpp`, `Operand.tpp`,
`OperandFactory.cpp`) -/

/-- `eOperandType`: the five operand kinds, in precision order. -/
inductive OpKind
  | int8
  | int16
  | int32
  | float
  | double
deriving DecidableEq, Repr

/-- `getPrecision()`: the integer value of the kind's enumerator (0–4). -/
def precision : OpKind → Nat
  | .int8 => 0
  | .int16 => 1
  | .int32 => 2
  | .float => 3
  | .double => 4

/-- `std::numeric_limits<T>::lowest()` for each kind's native type, as an
exact rational (for the floating kinds, `-FLT_MAX = -(2^24-1)·2^104` and
`-DBL_MAX = -(2^53-1)·2^971`). -/
def typeMinQ : OpKind → ℚ
  | .int8 => -128
  | .int16 => -32768
  | .int32 => -2147483648
  | .float => -(((2 ^ 24 - 1) * 2 ^ 104 : ℕ) : ℚ)
  | .double => -(((2 ^ 53 - 1) * 2 ^ 971 : ℕ) : ℚ)

/-- `std::numeric_limits<T>::max()` for each kind's native type. -/
def typeMaxQ : OpKind → ℚ
  | .int8 => 127
  | .int16 => 32767
  | .int32 => 2147483647
  | .float => (((2 ^ 24 - 1) * 2 ^ 104 : ℕ) : ℚ)
  | .double => (((2 ^ 53 - 1) * 2 ^ 971 : ℕ) : ℚ)

/-- `static_cast<T>(tempValue)` on the bounds-checked `long double`
intermediate: truncation toward zero for the integer kinds, IEEE
round-to-nearest-even for the floating kinds. -/
def castValue : OpKind → ℚ → ℚ
  | .int8, t => (ratTrunc t : ℚ)
  | .int16, t => (ratTrunc t : ℚ)
  | .int32, t => (ratTrunc t : ℚ)
  | .float, t => roundFP 24 (-149) t
  | .double, t => roundFP 53 (-1074) t

/-- `Operand<T>::valueToString`: integer kinds print through
`static_cast<int64_t>`, `float`/`double` print with
`setprecision(digits10 + 1)` — 7 and 16 significant digits. -/
def valueToStr : OpKind → ℚ → String
  | .int8, v => intToDecString (ratTrunc v)
  | .int16, v => intToDecString (ratTrunc v)
  | .int32, v => intToDecString (ratTrunc v)
  | .float, v => fmtG 7 v
  | .double, v => fmtG 16 v

/-- The exception kinds of `AbstractVMException.hpp`, carrying the message
each throw site constructs.  `baseExc` is the base-class
`AbstractVMException` thrown directly by `VirtualMachine::validateExit`;
`invalidArg` stands for the `std::invalid_argument`/`std::out_of_range`
raised by an uncaught `std::stold` inside the arithmetic operators (never
reachable on canonical operand texts). -/
inductive VMErr
  | lexical (msg : String)
  | syntaxErr (msg : String)
  | overflow (msg : String)
  | underflow (msg : String)
  | divZero (msg : String)
  | emptyStack (msg : String)
  | insufficient (msg : String)
  | assertExc (msg : String)
  | invalidArg
  | baseExc (msg : String)
deriving DecidableEq, Repr

/-- An operand value: its kind, its native numeric value (exact) and its
canonical text `_strValue`. -/
structure Operand where
  kind : OpKind
  val : ℚ
  str : String
deriving DecidableEq, Repr

/-- `OperandFactory::createOperand` followed by the `Operand<T>(std::string)`
constructor: `std::stold`, `validateBounds` (underflow checked first), the
native cast, and `valueToString`. -/
def createOperand (k : OpKind) (text : String) : Except VMErr Operand :=
  match parseDec text with
  | none => .error (.lexical ("Invalid numeric string: " ++ text))
  | some q0 =>
    if roundLD q0 < typeMinQ k then
      .error (.underflow ("Underflow: Value " ++ cppToStringLD (roundLD q0) ++
        " is below minimum for type."))
    else if typeMaxQ k < roundLD q0 then
      .error (.overflow ("Overflow: Value " ++ cppToStringLD (roundLD q0) ++
        " exceeds maximum for type."))
    else
      .ok ⟨k, castValue k (roundLD q0), valueToStr k (castValue k (roundLD q0))⟩

/-- The result kind selection shared by all five arithmetic operators:
`(getPrecision() >= rhs.getPrecision()) ? Type : rhs.getType()`. -/
def promote (ka kb : OpKind) : OpKind :=
  if precision kb ≤ precision ka then ka else kb

/-- The five arithmetic operators of `Operand.tpp`. -/
inductive ArithOp
  | add
  | sub
  | mul
  | div
  | mod
deriving DecidableEq, Repr

/-- The `long double` arithmetic each operator performs on
`leftValue`/`rightValue`: `+ - * /` round to extended precision; `fmodl` is
the exact remainder after truncating division (an IEEE-exact operation). -/
def arithEval (op : ArithOp) (l r : ℚ) : ℚ :=
  match op with
  | .add => roundLD (l + r)
  | .sub => roundLD (l - r)
  | .mul => roundLD (l * r)
  | .div => roundLD (l / r)
  | .mod => l - (ratTrunc (l / r) : ℚ) * r

/-- One arithmetic operator application `*a OP *b` (`a` the left operand):
`leftValue` is the native value, `rightValue` is `std::stold(b.toString())`;
`div`/`mod` test `rightValue == 0.0` before dividing; the result is built by
`factory.createOperand(resultType, std::to_string(resultValue))`. -/
def binOpResult (op : ArithOp) (a b : Operand) : Except VMErr Operand :=
  match parseDec b.str with
  | none => .error .invalidArg
  | some r0 =>
    if (op = .div ∨ op = .mod) ∧ roundLD r0 = 0 then
      .error (.divZero ("Division by zero error."))
    else
      createOperand (promote a.kind b.kind)
        (cppToStringLD (arithEval op a.val (roundLD r0)))

/-! ## Command set (`Commands.cpp`) and execution engine
(`VirtualMachine.cpp`) -/

/-- The eleven commands.  `push`/`assert` own the operand the parser's
factory call produced. -/
inductive Cmd
  | push (op : Operand)
  | pop
  | dump
  | assertC (expected : Operand)
  | arith (op : ArithOp)
  | print
  | exitC
deriving DecidableEq, Repr

/-- The capitalized command name used in the `InsufficientValuesException`
messages. -/
def arithName : ArithOp → String
  | .add => "Add"
  | .sub => "Sub"
  | .mul => "Mul"
  | .div => "Div"
  | .mod => "Mod"

/-- `DumpCommand::execute`: the stack is moved onto a temporary stack and
printed from there, so the elements are written deepest-first (the code's
"most recent first" comment notwithstanding), each followed by
`std::endl`; the stack is restored unchanged. -/
def dumpOutput (st : List Operand) : List Char :=
  st.reverse.flatMap fun op => op.str.data ++ ['\n']

/-- Result of executing one command: the stack as the command left it (also
on error — the pops performed before a throw stay popped), the characters
written to `std::cout`, whether the exit flag was set, and the thrown
exception if any. -/
structure ExecRes where
  stack : List Operand
  out : List Char
  exitSet : Bool
  err : Option VMErr
deriving DecidableEq, Repr

/-- `ICommand::execute` for each command, from `Commands.cpp`.
The stack is written top-first.

Modelled from the spec: the `ExitCommand` constructed by
`Parser::parseSimpleInstruction` (`std::make_unique<ExitCommand>(_vm)`) is
absent from the sources — `Commands.hpp` declares only a default-constructed
`ExitCommand` whose `execute` is a no-op and takes no VM pointer.  Per the
spec ("exit … signals the run state's exit flag; does not alter the stack")
and the declaration of `VirtualMachine::setExitCalled` ("called by the
ExitCommand"), the exit command here sets the exit flag and leaves the stack
unchanged. -/
def execCmd : Cmd → List Operand → ExecRes
  | .push op, st => ⟨op :: st, [], false, none⟩
  | .pop, [] => ⟨[], [], false, some (.emptyStack ("Pop on empty stack"))⟩
  | .pop, _ :: rest => ⟨rest, [], false, none⟩
  | .dump, st => ⟨st, dumpOutput st, false, none⟩
  | .assertC _, [] => ⟨[], [], false, some (.emptyStack ("Assert on empty stack"))⟩
  | .assertC e, top :: rest =>
    if top.kind ≠ e.kind then
      ⟨top :: rest, [], false, some (.assertExc
        ("Assert failed: type mismatch. Expected " ++
          natToDecString (precision e.kind) ++ " but got " ++
          natToDecString (precision top.kind)))⟩
    else if top.str ≠ e.str then
      ⟨top :: rest, [], false, some (.assertExc
        ("Assert failed: value mismatch. Expected " ++ e.str ++
          " but got " ++ top.str))⟩
    else ⟨top :: rest, [], false, none⟩
  | .arith aop, st =>
    match st with
    | b :: a :: rest =>
      match binOpResult aop a b with
      | .ok r => ⟨r :: rest, [], false, none⟩
      | .error e => ⟨rest, [], false, some e⟩
    | _ =>
      ⟨st, [], false, some (.insufficient
        (arithName aop ++ " requires at least 2 values on stack"))⟩
  | .print, [] => ⟨[], [], false, some (.emptyStack ("Print on empty stack"))⟩
  | .print, top :: rest =>
    if top.kind ≠ .int8 then
      ⟨top :: rest, [], false, some (.assertExc
        ("Print requires Int8 value on top of stack"))⟩
    else
      let v := stoiInt top.str
      ⟨top :: rest, [Char.ofNat ((v % 256).toNat), '\n'], false, none⟩
  | .exitC, st => ⟨st, [], true, none⟩

/-- Accumulated result of `VirtualMachine::executeCommands`. -/
structure RunAcc where
  stack : List Operand
  out : List Char
  exited : Bool
  err : Option VMErr
deriving DecidableEq, Repr

/-- `VirtualMachine::executeCommands`: run each command in order; a thrown
exception ends the loop; the loop breaks as soon as the exit flag is set. -/
def execCmds : List Cmd → List Operand → RunAcc
  | [], st => ⟨st, [], false, none⟩
  | c :: cs, st =>
    let r := execCmd c st
    match r.err with
    | some e => ⟨r.stack, r.out, false, some e⟩
    | none =>
      if r.exitSet then ⟨r.stack, r.out, true, none⟩
      else
        let rest := execCmds cs r.stack
        ⟨rest.stack, r.out ++ rest.out, rest.exited, rest.err⟩

/-- Observable outcome of `VirtualMachine::run`: output written, the operand
stack still held by the VM when `run` returns or throws, and the surfaced
error (if any). -/
structure RunRes where
  out : List Char
  finalStack : List Operand
  err : Option VMErr
deriving DecidableEq, Repr

/-- The message of the `AbstractVMException` thrown by
`VirtualMachine::validateExit`. -/
def missingExitRunMsg : String := "Error: 'exit' instruction missing."

/-- The execution phase of `VirtualMachine::run` in fail-fast mode, after
parsing produced `cmds`: `executeCommands`, then `validateExit`, then
`cleanupStack()`.  A throw from either of the first two propagates to the
caller *before* the `cleanupStack()` call at the end of `run`, so on the
error paths the stack is surfaced as-is (it is freed only later, by the
`~VirtualMachine` destructor). -/
def runCmds (cmds : List Cmd) : RunRes :=
  match (execCmds cmds []).err with
  | some e => ⟨(execCmds cmds []).out, (execCmds cmds []).stack, some e⟩
  | none =>
    if (execCmds cmds []).exited then ⟨(execCmds cmds []).out, [], none⟩
    else ⟨(execCmds cmds []).out, (execCmds cmds []).stack,
      some (.baseExc missingExitRunMsg)⟩

/-! ## Tokens and lexer (`Token.hpp`, `Token.cpp`, `Lexer.cpp`)

The lexer is modelled in fail-fast mode (`collectErrors = false`, the
default); the error-collection branch of `Lexer::nextToken` is outside the
modelled configuration. -/

/-- `TokenType`. -/
inductive TokType
  | PUSH | POP | DUMP | ASSERT | ADD | SUB | MUL | DIV | MOD | PRINT | EXIT
  | INT8 | INT16 | INT32 | FLOAT | DOUBLE
  | INTEGER | DECIMAL | LPAREN | RPAREN | NEWLINE | END_INPUT | END_FILE
  | COMMENT | UNKNOWN
deriving DecidableEq, Repr

/-- `Token::tokenTypeToString`. -/
def tokTypeToString : TokType → String
  | .PUSH => "PUSH"
  | .POP => "POP"
  | .DUMP => "DUMP"
  | .ASSERT => "ASSERT"
  | .ADD => "ADD"
  | .SUB => "SUB"
  | .MUL => "MUL"
  | .DIV => "DIV"
  | .MOD => "MOD"
  | .PRINT => "PRINT"
  | .EXIT => "EXIT"
  | .INT8 => "INT8"
  | .INT16 => "INT16"
  | .INT32 => "INT32"
  | .FLOAT => "FLOAT"
  | .DOUBLE => "DOUBLE"
  | .INTEGER => "INTEGER"
  | .DECIMAL => "DECIMAL"
  | .LPAREN => "LPAREN"
  | .RPAREN => "RPAREN"
  | .NEWLINE => "NEWLINE"
  | .END_INPUT => "END_INPUT"
  | .END_FILE => "END_FILE"
  | .COMMENT => "COMMENT"
  | .UNKNOWN => "UNKNOWN"

/-- A token: type, lexeme, 1-indexed line, column. -/
structure Token where
  type : TokType
  value : String
  line : Nat
  col : Nat
deriving DecidableEq, Repr

/-- `Lexer::keywordToTokenType`. -/
def keywordToTokType (s : String) : TokType :=
  if s = "push" then .PUSH
  else if s = "pop" then .POP
  else if s = "dump" then .DUMP
  else if s = "assert" then .ASSERT
  else if s = "add" then .ADD
  else if s = "sub" then .SUB
  else if s = "mul" then .MUL
  else if s = "div" then .DIV
  else if s = "mod" then .MOD
  else if s = "print" then .PRINT
  else if s = "exit" then .EXIT
  else if s = "int8" then .INT8
  else if s = "int16" then .INT16
  else if s = "int32" then .INT32
  else if s = "float" then .FLOAT
  else if s = "double" then .DOUBLE
  else .UNKNOWN

/-- `std::isspace` in the default locale. -/
def isSpaceC (c : Char) : Bool :=
  c = ' ' ∨ c = '\t' ∨ c = '\n' ∨ c = '\x0b' ∨ c = '\x0c' ∨ c = '\x0d'

/-- `std::isdigit`. -/
def isDigitC (c : Char) : Bool := '0' ≤ c ∧ c ≤ '9'

/-- `std::isalpha` (`isIdentifierStart`). -/
def isAlphaC (c : Char) : Bool := ('a' ≤ c ∧ c ≤ 'z') ∨ ('A' ≤ c ∧ c ≤ 'Z')

/-- `std::isalnum` (`isIdentifierChar`). -/
def isAlnumC (c : Char) : Bool := isAlphaC c ∨ isDigitC c

/-- Lexer cursor state: the current character, the unread input, the
1-indexed position, and the end-of-input flag. -/
structure LexState where
  cur : Char
  rest : List Char
  line : Nat
  col : Nat
  endReached : Bool
deriving DecidableEq, Repr

/-- `Lexer::advance`. -/
def lexAdvance (s : LexState) : LexState :=
  if s.endReached then s
  else
    match s.rest with
    | [] => { s with endReached := true, cur := '\x00' }
    | c :: r =>
      if c = '\n' then ⟨c, r, s.line + 1, 1, false⟩
      else ⟨c, r, s.line, s.col + 1, false⟩

/-- `Lexer::peek`. -/
def lexPeek (s : LexState) : Char :=
  if s.endReached then '\x00' else s.rest.headD '\x00'

/-- `Lexer::skipWhitespace` (fuel-based; the fuel passed is always larger
than the unread input). -/
def skipWS : Nat → LexState → LexState
  | 0, s => s
  | f + 1, s =>
    if isSpaceC s.cur ∧ s.cur ≠ '\n' ∧ ¬s.endReached then skipWS f (lexAdvance s)
    else s

/-- `Lexer::skipComment`. -/
def skipComment : Nat → LexState → LexState
  | 0, s => s
  | f + 1, s =>
    if s.cur ≠ '\n' ∧ ¬s.endReached then skipComment f (lexAdvance s) else s

/-- The character-collecting loop of `Lexer::readIdentifier`. -/
def readIdentAux : Nat → LexState → List Char → List Char × LexState
  | 0, s, acc => (acc.reverse, s)
  | f + 1, s, acc =>
    if isAlnumC s.cur ∧ ¬s.endReached then readIdentAux f (lexAdvance s) (s.cur :: acc)
    else (acc.reverse, s)

/-- The digit-collecting loop of `Lexer::readNumber`. -/
def readDigitsAux : Nat → LexState → List Char → List Char × LexState
  | 0, s, acc => (acc.reverse, s)
  | f + 1, s, acc =>
    if isDigitC s.cur ∧ ¬s.endReached then readDigitsAux f (lexAdvance s) (s.cur :: acc)
    else (acc.reverse, s)

/-- `Lexer::readIdentifier`. -/
def readIdentifier (s : LexState) : Token × LexState :=
  let c0 := s.col
  let (v, s1) := readIdentAux (s.rest.length + 1) s []
  (⟨keywordToTokType ⟨v⟩, ⟨v⟩, s1.line, c0⟩, s1)

/-- `Lexer::readNumber`. -/
def readNumber (s : LexState) : Token × LexState :=
  let c0 := s.col
  let (sgn, s1) : List Char × LexState :=
    if s.cur = '-' ∨ s.cur = '+' then ([s.cur], lexAdvance s) else ([], s)
  let (ip, s2) := readDigitsAux (s1.rest.length + 1) s1 []
  if s2.cur = '.' then
    let s3 := lexAdvance s2
    let (fp, s4) := readDigitsAux (s3.rest.length + 1) s3 []
    (⟨.DECIMAL, ⟨sgn ++ ip ++ '.' :: fp⟩, s4.line, c0⟩, s4)
  else
    (⟨.INTEGER, ⟨sgn ++ ip⟩, s2.line, c0⟩, s2)

/-- `Lexer::nextToken` in fail-fast mode. -/
def nextToken (fromStdin : Bool) (s : LexState) : Except VMErr (Token × LexState) :=
  let s := skipWS (s.rest.length + 1) s
  if s.endReached then .ok (⟨.END_FILE, "", s.line, s.col⟩, s)
  else if fromStdin ∧ s.cur = ';' ∧ lexPeek s = ';' then
    let c0 := s.col
    let s1 := lexAdvance (lexAdvance s)
    .ok (⟨.END_INPUT, ";;", s1.line, c0⟩, s1)
  else if s.cur = ';' then
    let c0 := s.col
    let s1 := skipComment (s.rest.length + 1) s
    .ok (⟨.COMMENT, ";", s1.line, c0⟩, s1)
  else if s.cur = '\n' then
    let c0 := s.col
    let s1 := lexAdvance s
    .ok (⟨.NEWLINE, "\\n", s1.line, c0⟩, s1)
  else if s.cur = '(' then
    let c0 := s.col
    let s1 := lexAdvance s
    .ok (⟨.LPAREN, "(", s1.line, c0⟩, s1)
  else if s.cur = ')' then
    let c0 := s.col
    let s1 := lexAdvance s
    .ok (⟨.RPAREN, ")", s1.line, c0⟩, s1)
  else if isDigitC s.cur ∨ ((s.cur = '-' ∨ s.cur = '+') ∧ isDigitC (lexPeek s)) then
    .ok (readNumber s)
  else if isAlphaC s.cur then
    .ok (readIdentifier s)
  else
    .error (.lexical ("Unexpected character '" ++ ⟨[s.cur]⟩ ++ "' at line " ++
      natToDecString s.line ++ ", column " ++ natToDecString s.col))

/-- The token-collecting loop of `Lexer::tokenize` (fuel-based; each
iteration that continues consumes at least one input character, so the fuel
`tokenize` passes never runs out). -/
def tokenizeLoop (fromStdin : Bool) : Nat → LexState → List Token →
    Except VMErr (List Token)
  | 0, _, _ => .error (.lexical ("unreachable: lexer fuel exhausted"))
  | f + 1, s, acc =>
    match nextToken fromStdin s with
    | .error e => .error e
    | .ok (t, s1) =>
      if t.type = .END_FILE ∨ t.type = .END_INPUT then .ok (acc.reverse ++ [t])
      else if t.type = .COMMENT then tokenizeLoop fromStdin f s1 acc
      else tokenizeLoop fromStdin f s1 (t :: acc)

/-- `Lexer::tokenize` in fail-fast mode. -/
def tokenize (text : String) (fromStdin : Bool) : Except VMErr (List Token) :=
  let s0 : LexState := ⟨'\x00', text.data, 1, 1, false⟩
  tokenizeLoop fromStdin (text.data.length + 2) (lexAdvance s0) []

/-! ## Parser (`Parser.cpp`), fail-fast mode -/

/-- `Parser::currentToken` past the end of the token vector. -/
def endTok : Token := ⟨.END_FILE, "", 0, 0⟩

/-- `Parser::currentToken`. -/
def curTok (ts : List Token) : Token := ts.headD endTok

/-- `Parser::skipNewlines`. -/
def skipNewlines : List Token → List Token
  | [] => []
  | t :: r => if t.type = .NEWLINE then skipNewlines r else t :: r

/-- The type keyword cases of `Parser::parseValue`. -/
def kindOfTokType : TokType → Option OpKind
  | .INT8 => some .int8
  | .INT16 => some .int16
  | .INT32 => some .int32
  | .FLOAT => some .float
  | .DOUBLE => some .double
  | _ => none

/-- `e.what()` of a modelled exception. -/
def errWhat : VMErr → String
  | .lexical m => m
  | .syntaxErr m => m
  | .overflow m => m
  | .underflow m => m
  | .divZero m => m
  | .emptyStack m => m
  | .insufficient m => m
  | .assertExc m => m
  | .invalidArg => "invalid argument"
  | .baseExc m => m

/-- The factory call at the end of `Parser::parseValue`: a failure is
re-reported as a parser-level `SyntaxException`. -/
def mkOperandChecked (k : OpKind) (v : String) (rest : List Token) :
    Except VMErr (Operand × List Token) :=
  match createOperand k v with
  | .ok op => .ok (op, rest)
  | .error e => .error (.syntaxErr ("Failed to create operand: " ++ errWhat e))

/-- `Parser::parseValue` in fail-fast mode: type keyword, then either
`( number )` or a bare number, then the factory. -/
def parseValue (ts : List Token) : Except VMErr (Operand × List Token) :=
  match kindOfTokType (curTok ts).type with
  | none =>
    .error (.syntaxErr ("Expected operand type (int8, int16, int32, float, double) at line " ++
      natToDecString (curTok ts).line))
  | some k =>
    if (curTok ts.tail).type = .LPAREN then
      if (curTok ts.tail.tail).type ≠ .INTEGER ∧ (curTok ts.tail.tail).type ≠ .DECIMAL then
        .error (.syntaxErr ("Expected numeric value at line " ++
          natToDecString (curTok ts.tail.tail).line))
      else if (curTok ts.tail.tail.tail).type ≠ .RPAREN then
        .error (.syntaxErr ("Expected " ++ tokTypeToString .RPAREN ++ " but got " ++
          tokTypeToString (curTok ts.tail.tail.tail).type ++ " at line " ++
          natToDecString (curTok ts.tail.tail.tail).line))
      else mkOperandChecked k (curTok ts.tail.tail).value ts.tail.tail.tail.tail
    else if (curTok ts.tail).type = .INTEGER ∨ (curTok ts.tail).type = .DECIMAL then
      mkOperandChecked k (curTok ts.tail).value ts.tail.tail
    else
      .error (.syntaxErr ("Expected '(' or numeric value after type at line " ++
        natToDecString (curTok ts.tail).line))

/-- `Parser::parseInstruction` (with `parsePush`/`parseAssert`/
`parseSimpleInstruction` inlined), fail-fast.  The middle component records
whether this instruction set `_hasExitInstruction`. -/
def parseInstruction (ts : List Token) : Except VMErr (Cmd × Bool × List Token) :=
  match (curTok ts).type with
  | .PUSH => (parseValue ts.tail).map fun p => (.push p.1, false, p.2)
  | .ASSERT => (parseValue ts.tail).map fun p => (.assertC p.1, false, p.2)
  | .POP => .ok (.pop, false, ts.tail)
  | .DUMP => .ok (.dump, false, ts.tail)
  | .ADD => .ok (.arith .add, false, ts.tail)
  | .SUB => .ok (.arith .sub, false, ts.tail)
  | .MUL => .ok (.arith .mul, false, ts.tail)
  | .DIV => .ok (.arith .div, false, ts.tail)
  | .MOD => .ok (.arith .mod, false, ts.tail)
  | .PRINT => .ok (.print, false, ts.tail)
  | .EXIT => .ok (.exitC, true, ts.tail)
  | _ =>
    .error (.syntaxErr ("Unknown instruction '" ++ (curTok ts).value ++ "' at line " ++
      natToDecString (curTok ts).line))

/-- The `while` loop of `Parser::parse` (fuel-based; every iteration that
continues consumes at least one token, so the fuel `parseTokens` passes
never runs out). -/
def parseLoop : Nat → List Token → List Cmd → Bool → Except VMErr (List Cmd × Bool)
  | 0, _, _, _ => .error (.syntaxErr ("unreachable: parser fuel exhausted"))
  | f + 1, ts, acc, hasExit =>
    if (curTok ts).type = .END_FILE ∨ (curTok ts).type = .END_INPUT then
      .ok (acc.reverse, hasExit)
    else
      match parseInstruction ts with
      | .error e => .error e
      | .ok (c, isExit, ts1) => parseLoop f (skipNewlines ts1) (c :: acc) (hasExit || isExit)

/-- The message of the `SyntaxException` raised by `Parser::parse` when no
`exit` instruction was seen. -/
def missingExitParseMsg : String := "Program must end with 'exit' instruction"

/-- `Parser::parse` in fail-fast mode: skip leading newlines, parse every
instruction, and only after the whole token sequence is consumed fail if no
`exit` instruction occurred. -/
def parseTokens (ts : List Token) : Except VMErr (List Cmd) :=
  match parseLoop (ts.length + 1) (skipNewlines ts) [] false with
  | .error e => .error e
  | .ok (cmds, hasExit) =>
    if hasExit then .ok cmds else .error (.syntaxErr missingExitParseMsg)

/-- `VirtualMachine::run` in fail-fast, default configuration: lex, parse,
execute, check the exit flag, clean up only on the non-throwing path. -/
def runProgram (text : String) (fromStdin : Bool) : RunRes :=
  match tokenize text fromStdin with
  | .error e => ⟨[], [], some e⟩
  | .ok toks =>
    match parseTokens toks with
    | .error e => ⟨[], [], some e⟩
    | .ok cmds => runCmds cmds

/-! ## Predicates used by the claim statements -/

/-- The bounds invariant of §3: the native value lies within the
representable range of the operand's kind. -/
def InBounds (op : Operand) : Prop :=
  typeMinQ op.kind ≤ op.val ∧ op.val ≤ typeMaxQ op.kind

instance (op : Operand) : Decidable (InBounds op) := by
  unfold InBounds; infer_instance

/-- The operands a command owns (push/assert own the parsed operand). -/
def cmdOperands : Cmd → List Operand
  | .push op => [op]
  | .assertC e => [e]
  | _ => []

/-- The three integer kinds. -/
def IsIntKind (k : OpKind) : Prop := k = .int8 ∨ k = .int16 ∨ k = .int32

instance (k : OpKind) : Decidable (IsIntKind k) := by
  unfold IsIntKind; infer_instance

/-- An operand of an integer kind in its canonical form: the native value is
an integer within the kind's range and the text is its decimal rendering.
Every integer-kind operand `createOperand` ever returns has this shape. -/
def IntCanonical (op : Operand) : Prop :=
  ∃ n : ℤ, op.val = (n : ℚ) ∧ op.str = intToDecString n ∧
    typeMinQ op.kind ≤ (n : ℚ) ∧ (n : ℚ) ≤ typeMaxQ op.kind

/-- Whether a factory result is an `OverflowException`. -/
def isOverflowResult : Except VMErr Operand → Bool
  | .error (.overflow _) => true
  | _ => false

/-- The value of `DBL_MAX` (the largest binary64 value). -/
def dblMaxQ : ℚ := (((2 ^ 53 - 1) * 2 ^ 971 : ℕ) : ℚ)

/-- A decimal text denoting exactly `1.7976931348623157e308` (the 17
significant digits of `DBL_MAX`, written out in full so it is a plain
integer literal): the 309-digit string `17976931348623157` followed by 292
zeros. -/
def dblMaxText : String := "17976931348623157" ++ ⟨List.replicate 292 '0'⟩

/-- The canonical text `valueToString` gives a `double` holding `DBL_MAX`. -/
def dblMaxStr : String := "1.797693134862316e+308"

/-- The operand `createOperand(Double, dblMaxText)` produces. -/
def dblMaxOp : Operand := ⟨.double, dblMaxQ, dblMaxStr⟩

/-- A `double` operand whose native value `10^20 + 16384` is exactly
representable in binary64 but renders (at 16 significant digits) as
`1e+20`. -/
def lossyOpA : Operand := ⟨.double, 10 ^ 20 + 16384, "1e+20"⟩

/-- The `double` operand holding `-10^20` (exactly representable, and its
rendering `-1e+20` re-reads exactly). -/
def lossyOpB : Operand := ⟨.double, -(10 ^ 20), "-1e+20"⟩

/-! ## Lemmas about rounding -/

/-- `ipowQ` agrees with the rational integer power. -/
theorem ipowQ_eq (b : ℕ) (e : ℤ) : ipowQ b e = (b : ℚ) ^ e := by
  unfold ipowQ
  split_ifs with h
  · push_cast
    rw [← zpow_natCast, Int.toNat_of_nonneg h]
  · push_cast
    rw [← zpow_natCast, Int.toNat_of_nonneg (by omega : (0 : ℤ) ≤ -e), ← zpow_neg, neg_neg]

/-- `FLT_MAX` in the power form used by the rounding lemmas. -/
theorem typeMaxQ_float_eq :
    typeMaxQ .float = ((2 : ℚ) ^ 24 - 1) * (2 : ℚ) ^ ((104 : ℤ)) := by
  have h : ((2 : ℚ) ^ ((104 : ℤ))) = ((2 : ℚ) ^ (104 : ℕ)) := by
    rw [← zpow_natCast]
    congr 1
  rw [h]
  simp only [typeMaxQ]
  push_cast [Nat.one_le_two_pow]
  ring

/-- `-FLT_MAX` in the power form used by the rounding lemmas. -/
theorem typeMinQ_float_eq :
    typeMinQ .float = -(((2 : ℚ) ^ 24 - 1) * (2 : ℚ) ^ ((104 : ℤ))) := by
  rw [← typeMaxQ_float_eq]
  simp only [typeMinQ, typeMaxQ]

/-- `DBL_MAX` in the power form used by the rounding lemmas. -/
theorem typeMaxQ_double_eq :
    typeMaxQ .double = ((2 : ℚ) ^ 53 - 1) * (2 : ℚ) ^ ((971 : ℤ)) := by
  have h : ((2 : ℚ) ^ ((971 : ℤ))) = ((2 : ℚ) ^ (971 : ℕ)) := by
    rw [← zpow_natCast]
    congr 1
  rw [h]
  simp only [typeMaxQ]
  push_cast [Nat.one_le_two_pow]
  ring

/-- `-DBL_MAX` in the power form used by the rounding lemmas. -/
theorem typeMinQ_double_eq :
    typeMinQ .double = -(((2 : ℚ) ^ 53 - 1) * (2 : ℚ) ^ ((971 : ℤ))) := by
  rw [← typeMaxQ_double_eq]
  simp only [typeMinQ, typeMaxQ]

theorem rneInt_le (q : ℚ) : (rneInt q : ℚ) ≤ q + 1 / 2 := by
  unfold rneInt
  have h1 := Int.floor_le q
  have h2 := Int.lt_floor_add_one q
  split_ifs with hlt hgt hev <;> push_cast <;> linarith

theorem le_rneInt (q : ℚ) : q - 1 / 2 ≤ (rneInt q : ℚ) := by
  unfold rneInt
  have h1 := Int.floor_le q
  have h2 := Int.lt_floor_add_one q
  split_ifs with hlt hgt hev <;> push_cast <;> linarith

theorem rneInt_intCast (n : ℤ) : rneInt (n : ℚ) = n := by
  unfold rneInt
  rw [Int.floor_intCast]
  norm_num

theorem rneInt_mono {p q : ℚ} (h : p ≤ q) : rneInt p ≤ rneInt q := by
  by_contra h'
  push_neg at h'
  have h1 : (rneInt q : ℚ) + 1 ≤ (rneInt p : ℚ) := by exact_mod_cast h'
  have h2 := le_rneInt q
  have h3 := rneInt_le p
  have hqp : q ≤ p := by linarith
  have : p = q := le_antisymm h hqp
  subst this
  exact absurd h' (by omega)

/-- Monotonicity against an integer upper bound. -/
theorem rneInt_le_intBound {q : ℚ} {c : ℤ} (h : q ≤ (c : ℚ)) : rneInt q ≤ c := by
  have := rneInt_mono h
  rwa [rneInt_intCast] at this

/-- Monotonicity against an integer lower bound. -/
theorem intBound_le_rneInt {q : ℚ} {c : ℤ} (h : (c : ℚ) ≤ q) : c ≤ rneInt q := by
  have := rneInt_mono h
  rwa [rneInt_intCast] at this

theorem log2fuel_correct : ∀ f n, 0 < n → n ≤ f →
    2 ^ log2fuel f n ≤ n ∧ n < 2 ^ (log2fuel f n + 1) := by
  intro f
  induction f with
  | zero => omega
  | succ f ih =>
    intro n hn hnf
    unfold log2fuel
    split_ifs with h2
    · constructor <;> simpa using by omega
    · push_neg at h2
      have hrec := ih (n / 2) (by omega) (by omega)
      obtain ⟨hl, hr⟩ := hrec
      have hdm := Nat.div_add_mod n 2
      have hm : n % 2 < 2 := Nat.mod_lt _ (by omega)
      constructor
      · have : 2 ^ (log2fuel f (n / 2) + 1) = 2 * 2 ^ log2fuel f (n / 2) := by ring
        rw [this]; omega
      · have : 2 ^ (log2fuel f (n / 2) + 1 + 1) = 2 * 2 ^ (log2fuel f (n / 2) + 1) := by ring
        rw [this]; omega

theorem nlog2_le {n : Nat} (h : 0 < n) : 2 ^ nlog2 n ≤ n :=
  (log2fuel_correct n n h le_rfl).1

theorem lt_nlog2 {n : Nat} (h : 0 < n) : n < 2 ^ (nlog2 n + 1) :=
  (log2fuel_correct n n h le_rfl).2

/-- The absolute value of a nonzero rational as a quotient of naturals. -/
theorem abs_eq_natAbs_div_den (q : ℚ) : |q| = (q.num.natAbs : ℚ) / (q.den : ℚ) := by
  conv_lhs => rw [← Rat.num_div_den q]
  rw [abs_div]
  congr 1
  · rw [Int.cast_natAbs, Int.cast_abs]
  · rw [abs_of_pos]
    exact_mod_cast q.pos

/-- Correctness of `ilog2`, lower side: `2 ^ ilog2 q ≤ |q|`. -/
theorem ilog2_le {q : ℚ} (hq : q ≠ 0) : (2 : ℚ) ^ ilog2 q ≤ |q| := by
  unfold ilog2
  simp only [ipowQ_eq, Nat.cast_ofNat]
  split_ifs with h1 h2
  · exact h1
  · exact h2
  · -- unconditional lower bound at ilog2Guess q - 1
    set a := q.num.natAbs with ha
    set b := q.den with hb
    have hapos : 0 < a := by
      simpa [ha] using Int.natAbs_pos.mpr (Rat.num_ne_zero.mpr hq)
    have hbpos : 0 < b := q.pos
    set g : ℤ := ilog2Guess q with hg
    have hgdef : g = (nlog2 a : ℤ) - (nlog2 b : ℤ) := rfl
    have habs : |q| = (a : ℚ) / (b : ℚ) := abs_eq_natAbs_div_den q
    have ha2 : (2 : ℚ) ^ (nlog2 a : ℤ) ≤ (a : ℚ) := by
      rw [zpow_natCast]
      exact_mod_cast nlog2_le hapos
    have hb2 : (b : ℚ) < (2 : ℚ) ^ ((nlog2 b : ℤ) + 1) := by
      have he : ((nlog2 b : ℤ) + 1) = ((nlog2 b + 1 : Nat) : ℤ) := by push_cast; ring
      rw [he, zpow_natCast]
      exact_mod_cast lt_nlog2 hbpos
    have hbq : (0 : ℚ) < (b : ℚ) := by exact_mod_cast hbpos
    have hkey : (2 : ℚ) ^ (g - 1) * (b : ℚ) < (a : ℚ) := by
      have hmul : (2 : ℚ) ^ (g - 1) * (b : ℚ) <
          (2 : ℚ) ^ (g - 1) * (2 : ℚ) ^ ((nlog2 b : ℤ) + 1) :=
        mul_lt_mul_of_pos_left hb2 (zpow_pos (by norm_num) _)
      have hexp : (2 : ℚ) ^ (g - 1) * (2 : ℚ) ^ ((nlog2 b : ℤ) + 1) =
          (2 : ℚ) ^ (nlog2 a : ℤ) := by
        rw [← zpow_add₀ (by norm_num : (2 : ℚ) ≠ 0)]
        congr 1
        omega
      calc (2 : ℚ) ^ (g - 1) * (b : ℚ) < (2 : ℚ) ^ (nlog2 a : ℤ) := by
            rw [← hexp]; exact hmul
        _ ≤ (a : ℚ) := ha2
    rw [habs, le_div_iff₀ hbq]
    exact le_of_lt hkey

/-- If `|q| < 2 ^ k` then `ilog2 q < k`. -/
theorem ilog2_lt_of_abs_lt {q : ℚ} {k : ℤ} (hq : q ≠ 0) (h : |q| < (2 : ℚ) ^ k) :
    ilog2 q < k := by
  have h1 := ilog2_le hq
  have h2 : (2 : ℚ) ^ ilog2 q < (2 : ℚ) ^ k := lt_of_le_of_lt h1 h
  exact (zpow_lt_zpow_iff_right₀ (by norm_num : (1 : ℚ) < 2)).mp h2

/-- Integers of magnitude below the precision round exactly. -/
theorem roundFP_intCast (p : Nat) (emin : ℤ) (he : emin ≤ 0) (n : ℤ)
    (h : |(n : ℚ)| < 2 ^ (p : ℤ)) : roundFP p emin (n : ℚ) = n := by
  unfold roundFP
  simp only [ipowQ_eq, Nat.cast_ofNat]
  split_ifs with h0
  · exact_mod_cast h0.symm
  · have hne : (n : ℚ) ≠ 0 := h0
    set u : ℤ := ulpExp p emin (n : ℚ) with hu
    have hil : ilog2 (n : ℚ) < (p : ℤ) := ilog2_lt_of_abs_lt hne h
    have hu0 : u ≤ 0 := by
      rw [hu]; unfold ulpExp; omega
    set k : Nat := (-u).toNat with hk
    have hker : -u = (k : ℤ) := by omega
    have hdiv : (n : ℚ) / 2 ^ u = ((n * 2 ^ k : ℤ) : ℚ) := by
      rw [div_eq_mul_inv, ← zpow_neg, hker, zpow_natCast]
      push_cast
      ring
    rw [hdiv, rneInt_intCast]
    push_cast
    rw [mul_assoc, ← zpow_natCast (2 : ℚ) k, ← zpow_add₀ (by norm_num : (2 : ℚ) ≠ 0)]
    have hz : (k : ℤ) + u = 0 := by omega
    rw [hz, zpow_zero, mul_one]

/-- Rounding a value of a format-representable magnitude bound `M =
(2^p - 1)·2^s` cannot leave `[-M, M]`. -/
theorem roundFP_bounded (p : Nat) (hp : 1 ≤ p) (emin s : ℤ) (hes : emin ≤ s) (q : ℚ)
    (h : |q| ≤ ((2 : ℚ) ^ p - 1) * (2 : ℚ) ^ s) :
    |roundFP p emin q| ≤ ((2 : ℚ) ^ p - 1) * (2 : ℚ) ^ s := by
  set M : ℚ := ((2 : ℚ) ^ p - 1) * (2 : ℚ) ^ s with hM
  have hMpos : 0 < M := by
    apply mul_pos _ (zpow_pos (by norm_num) _)
    have h2p : (2 : ℚ) ≤ (2 : ℚ) ^ p := by
      calc (2 : ℚ) = 2 ^ 1 := (pow_one 2).symm
      _ ≤ 2 ^ p := pow_le_pow_right₀ (by norm_num) hp
    linarith
  unfold roundFP
  simp only [ipowQ_eq, Nat.cast_ofNat]
  split_ifs with h0
  · simpa using le_of_lt hMpos
  · set u : ℤ := ulpExp p emin q with hu
    have hMlt : M < (2 : ℚ) ^ ((s + p : ℤ)) := by
      have he2 : (2 : ℚ) ^ ((s + p : ℤ)) = (2 : ℚ) ^ p * (2 : ℚ) ^ s := by
        rw [zpow_add₀ (by norm_num : (2 : ℚ) ≠ 0), zpow_natCast]
        ring
      rw [he2, hM]
      have h2s : (0 : ℚ) < (2 : ℚ) ^ s := zpow_pos (by norm_num) _
      nlinarith
    have hil : ilog2 q < s + (p : ℤ) := ilog2_lt_of_abs_lt h0 (lt_of_le_of_lt h hMlt)
    have hus : u ≤ s := by
      rw [hu]; unfold ulpExp; omega
    -- M / 2^u is the integer (2^p - 1) * 2^(s-u)
    set c : ℤ := (2 ^ p - 1) * 2 ^ (s - u).toNat with hc
    have h2u : (0 : ℚ) < (2 : ℚ) ^ u := zpow_pos (by norm_num) _
    have hsu : ((s - u).toNat : ℤ) = s - u := by omega
    have hc2 : (c : ℚ) = ((2 : ℚ) ^ p - 1) * (2 : ℚ) ^ ((s - u : ℤ)) := by
      rw [hc]
      push_cast
      rw [← zpow_natCast (2 : ℚ) (s - u).toNat, hsu]
    have hcM : (c : ℚ) * (2 : ℚ) ^ u = M := by
      rw [hc2, hM, mul_assoc, ← zpow_add₀ (by norm_num : (2 : ℚ) ≠ 0), sub_add_cancel]
    have habs := abs_le.mp h
    have hup : rneInt (q / 2 ^ u) ≤ c := by
      apply rneInt_le_intBound
      rw [div_le_iff₀ h2u]
      calc q ≤ M := habs.2
        _ = (c : ℚ) * (2 : ℚ) ^ u := hcM.symm
    have hdown : -c ≤ rneInt (q / 2 ^ u) := by
      apply intBound_le_rneInt
      rw [le_div_iff₀ h2u]
      push_cast
      calc (-(c : ℚ)) * (2 : ℚ) ^ u = -((c : ℚ) * (2 : ℚ) ^ u) := by ring
        _ = -M := by rw [hcM]
        _ ≤ q := habs.1
    rw [abs_le]
    constructor
    · calc -M = (-(c : ℚ)) * (2 : ℚ) ^ u := by rw [neg_mul, hcM]
        _ ≤ (rneInt (q / 2 ^ u) : ℚ) * (2 : ℚ) ^ u := by
            apply mul_le_mul_of_nonneg_right _ (le_of_lt h2u)
            exact_mod_cast hdown
    · calc (rneInt (q / 2 ^ u) : ℚ) * (2 : ℚ) ^ u ≤ (c : ℚ) * (2 : ℚ) ^ u := by
            apply mul_le_mul_of_nonneg_right _ (le_of_lt h2u)
            exact_mod_cast hup
        _ = M := hcM

/-! ## Lemmas about truncation and the native cast -/

theorem ratTrunc_intCast (n : ℤ) : ratTrunc (n : ℚ) = n := by
  unfold ratTrunc
  split_ifs <;> simp

/-- Truncation toward zero keeps a value inside any integer interval around
zero that contains it. -/
theorem ratTrunc_bounds (lo hi : ℤ) {t : ℚ} (h1 : (lo : ℚ) ≤ t) (h2 : t ≤ (hi : ℚ))
    (hlo : lo ≤ 0) (hhi : 0 ≤ hi) :
    (lo : ℚ) ≤ (ratTrunc t : ℚ) ∧ (ratTrunc t : ℚ) ≤ (hi : ℚ) := by
  unfold ratTrunc
  split_ifs with hpos
  · constructor
    · have hf : (0 : ℤ) ≤ ⌊t⌋ := Int.floor_nonneg.mpr hpos
      have : (lo : ℚ) ≤ ((0 : ℤ) : ℚ) := by exact_mod_cast hlo
      calc (lo : ℚ) ≤ ((0 : ℤ) : ℚ) := this
        _ ≤ (⌊t⌋ : ℚ) := by exact_mod_cast hf
    · calc (⌊t⌋ : ℚ) ≤ t := Int.floor_le t
        _ ≤ (hi : ℚ) := h2
  · push_neg at hpos
    constructor
    · calc (lo : ℚ) ≤ t := h1
        _ ≤ (⌈t⌉ : ℚ) := Int.le_ceil t
    · have hc : ⌈t⌉ ≤ 0 := Int.ceil_le.mpr (by exact_mod_cast le_of_lt hpos)
      have h0 : ((0 : ℤ) : ℚ) ≤ (hi : ℚ) := by exact_mod_cast hhi
      calc (⌈t⌉ : ℚ) ≤ ((0 : ℤ) : ℚ) := by exact_mod_cast hc
        _ ≤ (hi : ℚ) := h0

/-- The native cast performed after `validateBounds` keeps the value inside
the kind's representable range. -/
theorem castValue_inBounds (k : OpKind) (t : ℚ) (h1 : typeMinQ k ≤ t)
    (h2 : t ≤ typeMaxQ k) :
    typeMinQ k ≤ castValue k t ∧ castValue k t ≤ typeMaxQ k := by
  cases k with
  | int8 =>
    simp only [castValue, typeMinQ, typeMaxQ] at h1 h2 ⊢
    have hb := ratTrunc_bounds (-128) 127
      (by exact_mod_cast h1) (by exact_mod_cast h2) (by norm_num) (by norm_num)
    constructor
    · exact_mod_cast hb.1
    · exact_mod_cast hb.2
  | int16 =>
    simp only [castValue, typeMinQ, typeMaxQ] at h1 h2 ⊢
    have hb := ratTrunc_bounds (-32768) 32767
      (by exact_mod_cast h1) (by exact_mod_cast h2) (by norm_num) (by norm_num)
    constructor
    · exact_mod_cast hb.1
    · exact_mod_cast hb.2
  | int32 =>
    simp only [castValue, typeMinQ, typeMaxQ] at h1 h2 ⊢
    have hb := ratTrunc_bounds (-2147483648) 2147483647
      (by exact_mod_cast h1) (by exact_mod_cast h2) (by norm_num) (by norm_num)
    constructor
    · exact_mod_cast hb.1
    · exact_mod_cast hb.2
  | float =>
    have hb := roundFP_bounded 24 (by norm_num) (-149) 104 (by norm_num) t
      (by
        rw [abs_le]
        constructor
        · rw [← typeMinQ_float_eq]; exact h1
        · rw [← typeMaxQ_float_eq]; exact h2)
    have habs := abs_le.mp hb
    constructor
    · rw [typeMinQ_float_eq]; exact habs.1
    · rw [typeMaxQ_float_eq]; exact habs.2
  | double =>
    have hb := roundFP_bounded 53 (by norm_num) (-1074) 971 (by norm_num) t
      (by
        rw [abs_le]
        constructor
        · rw [← typeMinQ_double_eq]; exact h1
        · rw [← typeMaxQ_double_eq]; exact h2)
    have habs := abs_le.mp hb
    constructor
    · rw [typeMinQ_double_eq]; exact habs.1
    · rw [typeMaxQ_double_eq]; exact habs.2

/-! ## Lemmas about the factory -/

/-- Shape of a successful factory call. -/
theorem createOperand_ok_shape {k : OpKind} {text : String} {op : Operand}
    (h : createOperand k text = .ok op) :
    ∃ q0, parseDec text = some q0 ∧
      typeMinQ k ≤ roundLD q0 ∧ roundLD q0 ≤ typeMaxQ k ∧
      op = ⟨k, castValue k (roundLD q0), valueToStr k (castValue k (roundLD q0))⟩ := by
  unfold createOperand at h
  cases hp : parseDec text with
  | none => rw [hp] at h; exact absurd h (by simp)
  | some q0 =>
    rw [hp] at h
    simp only at h
    split_ifs at h with h1 h2
    push_neg at h1 h2
    refine ⟨q0, rfl, h1, h2, ?_⟩
    injection h with h3
    exact h3.symm

/-- A successful factory call returns an operand of the requested kind. -/
theorem createOperand_kind {k : OpKind} {text : String} {op : Operand}
    (h : createOperand k text = .ok op) : op.kind = k := by
  obtain ⟨q0, _, _, _, hop⟩ := createOperand_ok_shape h
  rw [hop]

/-- Every operand the factory returns satisfies the bounds invariant. -/
theorem createOperand_inBounds {k : OpKind} {text : String} {op : Operand}
    (h : createOperand k text = .ok op) : InBounds op := by
  obtain ⟨q0, _, h1, h2, hop⟩ := createOperand_ok_shape h
  rw [hop]
  exact castValue_inBounds k (roundLD q0) h1 h2

/-! ## Lemmas about decimal printing and reparsing -/

theorem digitChar_bounds {n : Nat} (h : n < 10) : '0' ≤ digitChar n ∧ digitChar n ≤ '9' := by
  interval_cases n <;> decide

theorem digitChar_toNat {n : Nat} (h : n < 10) : (digitChar n).toNat = 48 + n := by
  interval_cases n <;> decide

theorem natDigitsAux_ne_nil (f n : Nat) : natDigitsAux (f + 1) n ≠ [] := by
  unfold natDigitsAux
  split_ifs <;> simp

theorem natDigitsAux_mem_digit : ∀ f n c, c ∈ natDigitsAux f n → '0' ≤ c ∧ c ≤ '9' := by
  intro f
  induction f with
  | zero => intro n c hc; simp [natDigitsAux] at hc
  | succ f ih =>
    intro n c hc
    unfold natDigitsAux at hc
    split_ifs at hc with h10
    · simp at hc
      subst hc
      exact digitChar_bounds h10
    · rw [List.mem_append] at hc
      rcases hc with hc | hc
      · exact ih _ _ hc
      · simp at hc
        subst hc
        exact digitChar_bounds (Nat.mod_lt _ (by omega))

/-- One digit-consuming step of `parseDigitsAux`. -/
theorem parseDigitsAux_cons_digit {n : Nat} (h : n < 10) (rest : List Char) (acc cnt : Nat) :
    parseDigitsAux (digitChar n :: rest) acc cnt = parseDigitsAux rest (acc * 10 + n) (cnt + 1) := by
  unfold parseDigitsAux
  rw [if_pos (digitChar_bounds h), digitChar_toNat h]
  have he : 48 + n - 48 = n := by omega
  rw [he]
  cases rest <;> simp only [parseDigitsAux]

/-- Scanning the printed digits of `n` accumulates exactly `n`. -/
theorem parseDigitsAux_print : ∀ f n, n < f → ∀ (rest : List Char) (acc cnt : Nat),
    parseDigitsAux (natDigitsAux f n ++ rest) acc cnt =
      parseDigitsAux rest (acc * 10 ^ (natDigitsAux f n).length + n)
        (cnt + (natDigitsAux f n).length) := by
  intro f
  induction f with
  | zero => omega
  | succ f ih =>
    intro n hn rest acc cnt
    unfold natDigitsAux
    split_ifs with h10
    · rw [List.singleton_append, parseDigitsAux_cons_digit h10]
      norm_num
    · push_neg at h10
      have hdiv : n / 10 < f := by
        have h1 : n / 10 < n := Nat.div_lt_self (by omega) (by omega)
        omega
      rw [List.append_assoc, List.singleton_append,
        ih (n / 10) hdiv (digitChar (n % 10) :: rest) acc cnt,
        parseDigitsAux_cons_digit (Nat.mod_lt _ (by omega))]
      have hdm : 10 * (n / 10) + n % 10 = n := Nat.div_add_mod n 10
      have hval : (acc * 10 ^ (natDigitsAux f (n / 10)).length + n / 10) * 10 + n % 10 =
          acc * 10 ^ ((natDigitsAux f (n / 10)).length + 1) + n := by
        calc (acc * 10 ^ (natDigitsAux f (n / 10)).length + n / 10) * 10 + n % 10
            = acc * (10 ^ (natDigitsAux f (n / 10)).length * 10) +
              (10 * (n / 10) + n % 10) := by ring
          _ = acc * 10 ^ ((natDigitsAux f (n / 10)).length + 1) + n := by
              rw [hdm, pow_succ]
      rw [hval]
      have hlen : (natDigitsAux f (n / 10) ++ [digitChar (n % 10)]).length =
          (natDigitsAux f (n / 10)).length + 1 := by simp
      rw [hlen]
      have hcnt : cnt + (natDigitsAux f (n / 10)).length + 1 =
          cnt + ((natDigitsAux f (n / 10)).length + 1) := by omega
      rw [hcnt]

theorem signSplit_digit {c : Char} (h : '0' ≤ c ∧ c ≤ '9') (cs : List Char) :
    signSplit (c :: cs) = (1, c :: cs) := by
  have h1 : c ≠ '-' := fun hc => by subst hc; exact absurd h.1 (by decide)
  have h2 : c ≠ '+' := fun hc => by subst hc; exact absurd h.1 (by decide)
  simp only [signSplit]
  rw [if_neg h1, if_neg h2]

/-- Parsing a signed decimal rendering of a natural number yields it (with
the sign factor `signSplit` extracted). -/
theorem parseDecChars_digits_sign (m : Nat) (cs : List Char) (sgn : ℚ)
    (hs : signSplit cs = (sgn, natDigitsAux (m + 1) m)) :
    parseDecChars cs = some (sgn * m) := by
  have hpd : parseDigitsAux (natDigitsAux (m + 1) m) 0 0 =
      (m, (natDigitsAux (m + 1) m).length, []) := by
    have h0 := parseDigitsAux_print (m + 1) m (by omega) [] 0 0
    simpa [parseDigitsAux] using h0
  have hlen : (natDigitsAux (m + 1) m).length ≠ 0 := by
    cases h : natDigitsAux (m + 1) m with
    | nil => exact absurd h (natDigitsAux_ne_nil m m)
    | cons c cs => simp [h]
  unfold parseDecChars
  rw [hs]
  simp only [hpd]
  rw [if_neg (by simp [hlen])]
  norm_num

/-- Parsing a signed decimal rendering of `m` followed by `.000000` also
yields `m`. -/
theorem parseDecChars_digitsFrac_sign (m : Nat) (cs : List Char) (sgn : ℚ)
    (hs : signSplit cs = (sgn, natDigitsAux (m + 1) m ++ '.' :: ['0', '0', '0', '0', '0', '0'])) :
    parseDecChars cs = some (sgn * m) := by
  have hpd : parseDigitsAux (natDigitsAux (m + 1) m ++ '.' :: ['0', '0', '0', '0', '0', '0']) 0 0 =
      (m, (natDigitsAux (m + 1) m).length, '.' :: ['0', '0', '0', '0', '0', '0']) := by
    have h0 := parseDigitsAux_print (m + 1) m (by omega) ('.' :: ['0', '0', '0', '0', '0', '0']) 0 0
    rw [h0]
    unfold parseDigitsAux
    rw [if_neg (by decide)]
    norm_num
  have hlen : (natDigitsAux (m + 1) m).length ≠ 0 := by
    cases h : natDigitsAux (m + 1) m with
    | nil => exact absurd h (natDigitsAux_ne_nil m m)
    | cons c cs => simp [h]
  unfold parseDecChars
  rw [hs]
  simp only [hpd]
  have hfrac : parseDigitsAux ['0', '0', '0', '0', '0', '0'] 0 0 = (0, 6, []) := rfl
  simp [hfrac, hlen]

/-- `signSplit` leaves an unsigned digit string alone. -/
theorem signSplit_natDigits (m : Nat) (tail : List Char) :
    signSplit (natDigitsAux (m + 1) m ++ tail) = (1, natDigitsAux (m + 1) m ++ tail) := by
  cases h : natDigitsAux (m + 1) m with
  | nil => exact absurd h (natDigitsAux_ne_nil m m)
  | cons c cs =>
    have hdig : '0' ≤ c ∧ c ≤ '9' :=
      natDigitsAux_mem_digit _ _ _ (h ▸ List.mem_cons_self c cs)
    rw [List.cons_append]
    exact signSplit_digit hdig _

/-- `signSplit` extracts a leading minus. -/
theorem signSplit_neg (l : List Char) : signSplit ('-' :: l) = (-1, l) := by
  simp [signSplit]

/-- The cast of `natAbs` for nonnegative integers. -/
theorem natAbs_cast_of_nonneg {n : ℤ} (h : 0 ≤ n) : ((n.natAbs : ℚ)) = (n : ℚ) := by
  rw [Int.cast_natAbs, Int.cast_abs, abs_of_nonneg]
  exact_mod_cast h

/-- The cast of `natAbs` for negative integers. -/
theorem natAbs_cast_of_neg {n : ℤ} (h : n < 0) : ((n.natAbs : ℚ)) = -(n : ℚ) := by
  rw [Int.cast_natAbs, Int.cast_abs, abs_of_neg]
  exact_mod_cast h

/-- `std::stold`-style reparse of `operator<<(int64_t)` output. -/
theorem parseDec_intToDecString (n : ℤ) : parseDec (intToDecString n) = some (n : ℚ) := by
  unfold parseDec intToDecString natToDecString
  split_ifs with hn
  · have hdata : (("-" ++ (⟨natDigitsAux (n.natAbs + 1) n.natAbs⟩ : String)) : String).data =
        '-' :: natDigitsAux (n.natAbs + 1) n.natAbs := rfl
    rw [hdata, parseDecChars_digits_sign n.natAbs _ (-1) (signSplit_neg _)]
    rw [natAbs_cast_of_neg hn]
    norm_num
  · push_neg at hn
    have hdata : ((⟨natDigitsAux (n.natAbs + 1) n.natAbs⟩ : String) : String).data =
        natDigitsAux (n.natAbs + 1) n.natAbs := rfl
    rw [hdata]
    have hs := signSplit_natDigits n.natAbs []
    rw [List.append_nil] at hs
    rw [parseDecChars_digits_sign n.natAbs _ 1 hs, natAbs_cast_of_nonneg hn]
    norm_num

/-- Reparse of `std::to_string(long double)` output for integral values. -/
theorem parseDec_intFrac (n : ℤ) :
    parseDec (intToDecString n ++ ".000000") = some (n : ℚ) := by
  unfold parseDec intToDecString natToDecString
  split_ifs with hn
  · have hdata : ((("-" ++ (⟨natDigitsAux (n.natAbs + 1) n.natAbs⟩ : String)) ++
        (".000000" : String)) : String).data =
        '-' :: (natDigitsAux (n.natAbs + 1) n.natAbs ++ '.' :: ['0', '0', '0', '0', '0', '0']) := rfl
    rw [hdata, parseDecChars_digitsFrac_sign n.natAbs _ (-1) (signSplit_neg _)]
    rw [natAbs_cast_of_neg hn]
    norm_num
  · push_neg at hn
    have hdata : (((⟨natDigitsAux (n.natAbs + 1) n.natAbs⟩ : String) ++
        (".000000" : String)) : String).data =
        natDigitsAux (n.natAbs + 1) n.natAbs ++ '.' :: ['0', '0', '0', '0', '0', '0'] := rfl
    rw [hdata, parseDecChars_digitsFrac_sign n.natAbs _ 1 (signSplit_natDigits n.natAbs _),
      natAbs_cast_of_nonneg hn]
    norm_num

/-- `std::to_string(long double)` of an integral value renders the integer
followed by `.000000`. -/
theorem cppToStringLD_intCast (n : ℤ) :
    cppToStringLD (n : ℚ) = intToDecString n ++ ".000000" := by
  unfold cppToStringLD
  have h1 : ((n : ℚ) * 1000000) = ((n * 1000000 : ℤ) : ℚ) := by push_cast; ring
  rw [h1, rneInt_intCast]
  have h2 : (n * 1000000).natAbs = n.natAbs * 1000000 := by
    rw [Int.natAbs_mul]
    simp
  rw [h2]
  have h3 : n.natAbs * 1000000 / 1000000 = n.natAbs := Nat.mul_div_cancel _ (by norm_num)
  have h4 : n.natAbs * 1000000 % 1000000 = 0 := Nat.mul_mod_left _ _
  rw [h3, h4]
  have h5 : padFrac6 0 = "000000" := rfl
  rw [h5]
  unfold intToDecString
  by_cases hn : n < 0
  · rw [if_pos (show (n : ℚ) < 0 by exact_mod_cast hn), if_pos hn]
    apply String.ext
    simp [String.data_append]
  · rw [if_neg (show ¬((n : ℚ) < 0) by exact_mod_cast hn), if_neg hn]
    apply String.ext
    simp [String.data_append]

/-- `std::stoi` reads back `operator<<(int64_t)` output. -/
theorem stoiInt_intToDecString (n : ℤ) : stoiInt (intToDecString n) = n := by
  have hval : (parseDigitsAux (natDigitsAux (n.natAbs + 1) n.natAbs) 0 0).1 = n.natAbs := by
    have h0 := parseDigitsAux_print (n.natAbs + 1) n.natAbs (by omega) [] 0 0
    rw [List.append_nil] at h0
    rw [h0]
    simp [parseDigitsAux]
  unfold stoiInt intToDecString natToDecString
  split_ifs with hn
  · show -((parseDigitsAux (natDigitsAux (n.natAbs + 1) n.natAbs) 0 0).1 : ℤ) = n
    rw [hval]
    omega
  · push_neg at hn
    cases h : natDigitsAux (n.natAbs + 1) n.natAbs with
    | nil => exact absurd h (natDigitsAux_ne_nil _ _)
    | cons c cs =>
      have hdig : '0' ≤ c ∧ c ≤ '9' :=
        natDigitsAux_mem_digit _ _ _ (h ▸ List.mem_cons_self c cs)
      have hc1 : c ≠ '-' := fun hc => by subst hc; exact absurd hdig.1 (by decide)
      have hc2 : c ≠ '+' := fun hc => by subst hc; exact absurd hdig.1 (by decide)
      show (if c = '-' then -((parseDigitsAux cs 0 0).1 : ℤ)
        else if c = '+' then ((parseDigitsAux cs 0 0).1 : ℤ)
        else ((parseDigitsAux (c :: cs) 0 0).1 : ℤ)) = n
      rw [if_neg hc1, if_neg hc2, ← h, hval]
      omega

/-- Extended-precision rounding is exact on 64-bit integers. -/
theorem roundLD_intCast {n : ℤ} (h : |(n : ℚ)| < 2 ^ ((64 : Nat) : ℤ)) :
    roundLD (n : ℚ) = (n : ℚ) :=
  roundFP_intCast 64 (-16445) (by norm_num) n h

/-- Integer-kind range bounds give 64-bit magnitude. -/
theorem intKind_abs_lt {k : OpKind} (hk : IsIntKind k) {n : ℤ}
    (h1 : typeMinQ k ≤ (n : ℚ)) (h2 : (n : ℚ) ≤ typeMaxQ k) :
    |(n : ℚ)| < 2 ^ ((64 : Nat) : ℤ) := by
  have hpow : ((2 : ℚ)) ^ ((64 : Nat) : ℤ) = (2 : ℚ) ^ (64 : Nat) := zpow_natCast 2 64
  rw [hpow, abs_lt]
  rcases hk with hk | hk | hk <;> subst hk <;>
    simp only [typeMinQ, typeMaxQ] at h1 h2 <;> constructor <;> nlinarith [h1, h2]

/-- The factory on the canonical rendering of an in-range integer returns
the canonical operand. -/
theorem createOperand_intCanonical {k : OpKind} (hk : IsIntKind k) {n : ℤ}
    (h1 : typeMinQ k ≤ (n : ℚ)) (h2 : (n : ℚ) ≤ typeMaxQ k) :
    createOperand k (intToDecString n) = .ok ⟨k, (n : ℚ), intToDecString n⟩ := by
  have hround : roundLD ((n : ℚ)) = (n : ℚ) := roundLD_intCast (intKind_abs_lt hk h1 h2)
  have hcast : castValue k ((n : ℚ)) = (n : ℚ) := by
    rcases hk with hk | hk | hk <;> subst hk <;>
      simp [castValue, ratTrunc_intCast]
  have hstr : valueToStr k ((n : ℚ)) = intToDecString n := by
    rcases hk with hk | hk | hk <;> subst hk <;>
      simp [valueToStr, ratTrunc_intCast]
  unfold createOperand
  rw [parseDec_intToDecString]
  show (if roundLD ((n : ℚ)) < typeMinQ k then
      Except.error (VMErr.underflow ("Underflow: Value " ++ cppToStringLD (roundLD ((n : ℚ))) ++
        " is below minimum for type."))
    else if typeMaxQ k < roundLD ((n : ℚ)) then
      Except.error (VMErr.overflow ("Overflow: Value " ++ cppToStringLD (roundLD ((n : ℚ))) ++
        " exceeds maximum for type."))
    else Except.ok (Operand.mk k (castValue k (roundLD ((n : ℚ))))
      (valueToStr k (castValue k (roundLD ((n : ℚ))))))) =
    Except.ok (Operand.mk k ((n : ℚ)) (intToDecString n))
  rw [hround, if_neg (by push_neg; exact h1), if_neg (by push_neg; exact h2), hcast, hstr]

/-- Integer-kind factory results are canonical: an integer value in range and
its decimal rendering as text. -/
theorem createOperand_intShape {k : OpKind} (hk : IsIntKind k) {text : String}
    {op : Operand} (h : createOperand k text = .ok op) :
    ∃ n : ℤ, op = ⟨k, (n : ℚ), intToDecString n⟩ ∧
      typeMinQ k ≤ (n : ℚ) ∧ (n : ℚ) ≤ typeMaxQ k := by
  obtain ⟨q0, hp, h1, h2, hop⟩ := createOperand_ok_shape h
  have hcast : castValue k (roundLD q0) = ((ratTrunc (roundLD q0) : ℤ) : ℚ) := by
    rcases hk with hk | hk | hk <;> subst hk <;> simp [castValue]
  have hstr : valueToStr k (castValue k (roundLD q0)) =
      intToDecString (ratTrunc (roundLD q0)) := by
    rw [hcast]
    rcases hk with hk | hk | hk <;> subst hk <;> simp [valueToStr, ratTrunc_intCast]
  have hbounds := castValue_inBounds k (roundLD q0) h1 h2
  rw [hcast] at hbounds
  exact ⟨ratTrunc (roundLD q0), by rw [hop, hstr, hcast], hbounds.1, hbounds.2⟩

/-- A successful arithmetic result comes out of the factory. -/
theorem binOpResult_ok_create {aop : ArithOp} {a b r : Operand}
    (h : binOpResult aop a b = .ok r) :
    createOperand (promote a.kind b.kind)
      (cppToStringLD (arithEval aop a.val (roundLD ((parseDec b.str).getD 0)))) = .ok r := by
  unfold binOpResult at h
  cases hp : parseDec b.str with
  | none => rw [hp] at h; exact absurd h (by simp)
  | some r0 =>
    rw [hp] at h
    replace h : (if (aop = ArithOp.div ∨ aop = ArithOp.mod) ∧ roundLD r0 = 0 then
        (Except.error (VMErr.divZero ("Division by zero error.")) : Except VMErr Operand)
      else createOperand (promote a.kind b.kind)
        (cppToStringLD (arithEval aop a.val (roundLD r0)))) = .ok r := h
    by_cases hz : (aop = ArithOp.div ∨ aop = ArithOp.mod) ∧ roundLD r0 = 0
    · rw [if_pos hz] at h
      exact absurd h (by simp)
    · rw [if_neg hz] at h
      simpa using h

/-- The stack after any single command holds only operands that were already
on the stack, owned by the command, or produced by the factory. -/
theorem execCmd_stack_origin (c : Cmd) (st : List Operand) :
    ∀ op ∈ (execCmd c st).stack,
      op ∈ st ∨ op ∈ cmdOperands c ∨ ∃ k t, createOperand k t = .ok op := by
  intro op hop
  cases c with
  | push o =>
    simp only [execCmd] at hop
    rcases List.mem_cons.mp hop with h | h
    · exact Or.inr (Or.inl (by simp [cmdOperands, h]))
    · exact Or.inl h
  | pop =>
    cases st with
    | nil => simp [execCmd] at hop
    | cons t rest =>
      simp only [execCmd] at hop
      exact Or.inl (List.mem_cons_of_mem t hop)
  | dump =>
    simp only [execCmd] at hop
    exact Or.inl hop
  | assertC e =>
    cases st with
    | nil => simp [execCmd] at hop
    | cons t rest =>
      simp only [execCmd] at hop
      split_ifs at hop <;> exact Or.inl hop
  | arith aop =>
    match st with
    | [] => simp [execCmd] at hop
    | [a] =>
      simp [execCmd] at hop
      exact Or.inl (by simp [hop])
    | b :: a :: rest =>
      simp only [execCmd] at hop
      cases hb : binOpResult aop a b with
      | ok r =>
        rw [hb] at hop
        simp only at hop
        rcases List.mem_cons.mp hop with h | h
        · subst h
          exact Or.inr (Or.inr ⟨_, _, binOpResult_ok_create hb⟩)
        · exact Or.inl (List.mem_cons_of_mem b (List.mem_cons_of_mem a h))
      | error e =>
        rw [hb] at hop
        simp only at hop
        exact Or.inl (List.mem_cons_of_mem b (List.mem_cons_of_mem a hop))
  | print =>
    cases st with
    | nil => simp [execCmd] at hop
    | cons t rest =>
      simp only [execCmd] at hop
      split_ifs at hop <;> exact Or.inl hop
  | exitC =>
    simp only [execCmd] at hop
    exact Or.inl hop

/-- One command preserves the stack-wide bounds invariant (given the
command's own operands satisfy it). -/
theorem execCmd_preserves_inBounds (c : Cmd) (st : List Operand)
    (hc : ∀ op ∈ cmdOperands c, InBounds op) (hst : ∀ op ∈ st, InBounds op) :
    ∀ op ∈ (execCmd c st).stack, InBounds op := by
  intro op hop
  rcases execCmd_stack_origin c st op hop with h | h | ⟨k, t, h⟩
  · exact hst op h
  · exact hc op h
  · exact createOperand_inBounds h

/-! ## Lemmas about the execution loop and `run` -/

/-- Commands after an `exit` are never reached: the loop's result on
`pre ++ exit :: post` never depends on `post`. -/
theorem execCmds_stops_at_exit : ∀ (pre post : List Cmd) (st : List Operand),
    execCmds (pre ++ .exitC :: post) st = execCmds (pre ++ [.exitC]) st := by
  intro pre
  induction pre with
  | nil =>
    intro post st
    simp [execCmds, execCmd]
  | cons c pre ih =>
    intro post st
    simp only [List.cons_append, execCmds]
    cases herr : (execCmd c st).err with
    | some e => simp
    | none =>
      by_cases hex : (execCmd c st).exitSet
      · simp [hex]
      · simp [hex, ih post (execCmd c st).stack]

/-- Cleanup behaviour of the `run` execution phase in fail-fast mode: a run
that surfaces no error returns with the stack emptied; a run that surfaces
an error returns with the stack exactly as execution left it (the
`cleanupStack()` call at the end of `run` is not reached). -/
theorem runCmds_cleanup (cmds : List Cmd) :
    ((runCmds cmds).err = none → (runCmds cmds).finalStack = []) ∧
    (∀ e, (runCmds cmds).err = some e →
      (runCmds cmds).finalStack = (execCmds cmds []).stack) := by
  unfold runCmds
  cases herr : (execCmds cmds []).err with
  | some e => simp [herr]
  | none =>
    by_cases hex : (execCmds cmds []).exited
    · simp [herr, hex]
    · simp [herr, hex]

/-! ## Lemmas about the parser -/

theorem skipNewlines_mem : ∀ (l : List Token) (x : Token), x ∈ skipNewlines l → x ∈ l := by
  intro l
  induction l with
  | nil => intro x hx; simp [skipNewlines] at hx
  | cons t r ih =>
    intro x hx
    unfold skipNewlines at hx
    split_ifs at hx with ht
    · exact List.mem_cons_of_mem t (ih x hx)
    · exact hx

theorem mkOperandChecked_ok {k : OpKind} {v : String} {rest : List Token}
    {op : Operand} {ts' : List Token}
    (h : mkOperandChecked k v rest = .ok (op, ts')) :
    createOperand k v = .ok op ∧ ts' = rest := by
  unfold mkOperandChecked at h
  cases hc : createOperand k v with
  | ok o =>
    rw [hc] at h
    simp only [Except.ok.injEq, Prod.mk.injEq] at h
    exact ⟨by rw [h.1], h.2.symm⟩
  | error e =>
    rw [hc] at h
    simp at h

/-- Tokens remaining after `parseValue` are a suffix of the input tokens. -/
theorem parseValue_mem {ts : List Token} {op : Operand} {ts' : List Token}
    (h : parseValue ts = .ok (op, ts')) : ∀ x ∈ ts', x ∈ ts := by
  unfold parseValue at h
  revert h
  cases hk : kindOfTokType (curTok ts).type <;> intro h
  · exact Except.noConfusion h
  · split_ifs at h with h1 h2 h3
    · have hrest := (mkOperandChecked_ok h).2
      subst hrest
      exact fun x hx => List.mem_of_mem_tail (List.mem_of_mem_tail (List.mem_of_mem_tail
        (List.mem_of_mem_tail hx)))
    · have hrest := (mkOperandChecked_ok h).2
      subst hrest
      exact fun x hx => List.mem_of_mem_tail (List.mem_of_mem_tail hx)

/-- Tokens remaining after `parseInstruction` are a suffix of the input. -/
theorem parseInstruction_mem {ts : List Token} {c : Cmd} {e : Bool} {ts' : List Token}
    (h : parseInstruction ts = .ok (c, e, ts')) : ∀ x ∈ ts', x ∈ ts := by
  unfold parseInstruction at h
  revert h
  cases htt : (curTok ts).type <;> intro h
  case PUSH =>
    cases hv : parseValue ts.tail with
    | error ee =>
      rw [hv] at h
      exact Except.noConfusion h
    | ok p =>
      rw [hv] at h
      have hts : p.2 = ts' :=
        congrArg (fun x => match x with | Except.ok q => q.2.2 | Except.error _ => ts') h
      subst hts
      have hv2 : parseValue ts.tail = .ok (p.1, p.2) := hv
      exact fun x hx => List.mem_of_mem_tail (parseValue_mem hv2 x hx)
  case ASSERT =>
    cases hv : parseValue ts.tail with
    | error ee =>
      rw [hv] at h
      exact Except.noConfusion h
    | ok p =>
      rw [hv] at h
      have hts : p.2 = ts' :=
        congrArg (fun x => match x with | Except.ok q => q.2.2 | Except.error _ => ts') h
      subst hts
      have hv2 : parseValue ts.tail = .ok (p.1, p.2) := hv
      exact fun x hx => List.mem_of_mem_tail (parseValue_mem hv2 x hx)
  case POP | DUMP | ADD | SUB | MUL | DIV | MOD | PRINT | EXIT =>
    have hts : ts.tail = ts' :=
      congrArg (fun x => match x with | Except.ok q => q.2.2 | Except.error _ => ts.tail) h
    subst hts
    exact fun x hx => List.mem_of_mem_tail hx
  all_goals exact Except.noConfusion h

/-- An instruction that sets `_hasExitInstruction` has seen an `EXIT`
token. -/
theorem parseInstruction_exit {ts : List Token} {c : Cmd} {ts' : List Token}
    (h : parseInstruction ts = .ok (c, true, ts')) : ∃ t ∈ ts, t.type = .EXIT := by
  unfold parseInstruction at h
  revert h
  cases htt : (curTok ts).type <;> intro h
  case PUSH =>
    cases hv : parseValue ts.tail with
    | error ee =>
      rw [hv] at h
      exact Except.noConfusion h
    | ok p =>
      rw [hv] at h
      have hfl : false = true :=
        congrArg (fun x => match x with | Except.ok q => q.2.1 | Except.error _ => false) h
      exact Bool.noConfusion hfl
  case ASSERT =>
    cases hv : parseValue ts.tail with
    | error ee =>
      rw [hv] at h
      exact Except.noConfusion h
    | ok p =>
      rw [hv] at h
      have hfl : false = true :=
        congrArg (fun x => match x with | Except.ok q => q.2.1 | Except.error _ => false) h
      exact Bool.noConfusion hfl
  case POP | DUMP | ADD | SUB | MUL | DIV | MOD | PRINT =>
    have hfl : false = true :=
      congrArg (fun x => match x with | Except.ok q => q.2.1 | Except.error _ => false) h
    exact Bool.noConfusion hfl
  case EXIT =>
    cases hts : ts with
    | nil =>
      rw [hts] at htt
      exact absurd htt (by decide)
    | cons t rest =>
      refine ⟨t, List.mem_cons_self t rest, ?_⟩
      rw [hts] at htt
      exact htt
  all_goals exact Except.noConfusion h

/-- If the parse loop finishes with the exit flag set, some `EXIT` token
occurs in the input (or the flag was set on entry). -/
theorem parseLoop_exit : ∀ (f : Nat) (ts : List Token) (acc : List Cmd) (b : Bool)
    (cmds : List Cmd), parseLoop f ts acc b = .ok (cmds, true) →
    b = true ∨ ∃ t ∈ ts, t.type = .EXIT := by
  intro f
  induction f with
  | zero =>
    intro ts acc b cmds h
    exact Except.noConfusion h
  | succ f ih =>
    intro ts acc b cmds h
    unfold parseLoop at h
    split_ifs at h with hend
    · -- end marker: flag unchanged
      have hb : b = true :=
        congrArg (fun x => match x with | Except.ok q => q.2 | Except.error _ => b) h
      exact Or.inl hb
    · revert h
      cases hpi : parseInstruction ts with
      | error e =>
        intro h
        exact Except.noConfusion h
      | ok p =>
        intro h
        have hv2 : parseInstruction ts = .ok (p.1, p.2.1, p.2.2) := hpi
        rcases ih (skipNewlines p.2.2) (p.1 :: acc) (b || p.2.1) cmds h with hb | ⟨t, ht, hte⟩
        · rcases Bool.or_eq_true_iff.mp hb with hb1 | hb2
          · exact Or.inl hb1
          · rw [hb2] at hv2
            exact Or.inr (parseInstruction_exit hv2)
        · exact Or.inr ⟨t, parseInstruction_mem hv2 t (skipNewlines_mem _ t ht), hte⟩

/-- The result-kind selection is symmetric (equal precision implies equal
kind, since the five kinds have distinct precisions). -/
theorem promote_comm (x y : OpKind) : promote x y = promote y x := by
  cases x <;> cases y <;> rfl

/-- Reduction of `binOpResult` once the right operand's text parses. -/
theorem binOpResult_parse_some {aop : ArithOp} {a b : Operand} {r0 : ℚ}
    (hp : parseDec b.str = some r0) :
    binOpResult aop a b =
      if (aop = .div ∨ aop = .mod) ∧ roundLD r0 = 0 then
        .error (.divZero ("Division by zero error."))
      else
        createOperand (promote a.kind b.kind)
          (cppToStringLD (arithEval aop a.val (roundLD r0))) := by
  unfold binOpResult
  rw [hp]

/-- The integer-kind ranges sit inside `[-2^31, 2^31)`. -/
theorem intKind_range {k : OpKind} (hk : IsIntKind k) :
    -2147483648 ≤ typeMinQ k ∧ typeMaxQ k ≤ 2147483647 := by
  rcases hk with hk | hk | hk <;> subst hk <;> constructor <;> norm_num [typeMinQ, typeMaxQ]

/-- Sum of two integer-kind values stays far below the extended format's
64-bit exact-integer range. -/
theorem intKind_sum_abs_lt {ka kb : OpKind} (hka : IsIntKind ka) (hkb : IsIntKind kb)
    {na nb : ℤ} (h1 : typeMinQ ka ≤ (na : ℚ)) (h2 : (na : ℚ) ≤ typeMaxQ ka)
    (h3 : typeMinQ kb ≤ (nb : ℚ)) (h4 : (nb : ℚ) ≤ typeMaxQ kb) :
    |((na + nb : ℤ) : ℚ)| < 2 ^ ((64 : Nat) : ℤ) := by
  have ra := intKind_range hka
  have rb := intKind_range hkb
  have hpow : ((2 : ℚ)) ^ ((64 : Nat) : ℤ) = (2 : ℚ) ^ (64 : Nat) := zpow_natCast 2 64
  rw [hpow, abs_lt]
  push_cast
  constructor <;> nlinarith [ra.1, ra.2, rb.1, rb.2, h1, h2, h3, h4]

/-- Product of two integer-kind values stays below the extended format's
64-bit exact-integer range. -/
theorem intKind_mul_abs_lt {ka kb : OpKind} (hka : IsIntKind ka) (hkb : IsIntKind kb)
    {na nb : ℤ} (h1 : typeMinQ ka ≤ (na : ℚ)) (h2 : (na : ℚ) ≤ typeMaxQ ka)
    (h3 : typeMinQ kb ≤ (nb : ℚ)) (h4 : (nb : ℚ) ≤ typeMaxQ kb) :
    |((na * nb : ℤ) : ℚ)| < 2 ^ ((64 : Nat) : ℤ) := by
  have ra := intKind_range hka
  have rb := intKind_range hkb
  have hpow : ((2 : ℚ)) ^ ((64 : Nat) : ℤ) = (2 : ℚ) ^ (64 : Nat) := zpow_natCast 2 64
  rw [hpow, abs_lt]
  push_cast
  have hna1 : (-2147483648 : ℚ) ≤ (na : ℚ) := le_trans ra.1 h1
  have hna2 : (na : ℚ) ≤ 2147483647 := le_trans h2 ra.2
  have hnb1 : (-2147483648 : ℚ) ≤ (nb : ℚ) := le_trans rb.1 h3
  have hnb2 : (nb : ℚ) ≤ 2147483647 := le_trans h4 rb.2
  constructor <;> nlinarith [hna1, hna2, hnb1, hnb2]

/-- `add` on canonical integer-kind operands evaluates exactly. -/
theorem binOpResult_int_add {a b : Operand} {na nb : ℤ}
    (hka : IsIntKind a.kind) (hkb : IsIntKind b.kind)
    (hva : a.val = (na : ℚ)) (hsb : b.str = intToDecString nb)
    (h1 : typeMinQ a.kind ≤ (na : ℚ)) (h2 : (na : ℚ) ≤ typeMaxQ a.kind)
    (h3 : typeMinQ b.kind ≤ (nb : ℚ)) (h4 : (nb : ℚ) ≤ typeMaxQ b.kind) :
    binOpResult .add a b =
      createOperand (promote a.kind b.kind) (cppToStringLD ((na + nb : ℤ) : ℚ)) := by
  have hparse : parseDec b.str = some ((nb : ℚ)) := by
    rw [hsb]
    exact parseDec_intToDecString nb
  have hrnd : roundLD ((nb : ℚ)) = (nb : ℚ) := roundLD_intCast (intKind_abs_lt hkb h3 h4)
  rw [binOpResult_parse_some hparse, if_neg (by simp), hrnd, hva]
  show createOperand (promote a.kind b.kind)
    (cppToStringLD (roundLD ((na : ℚ) + (nb : ℚ)))) = _
  have hcast : ((na : ℚ) + (nb : ℚ)) = ((na + nb : ℤ) : ℚ) := by push_cast; ring
  rw [hcast, roundLD_intCast (intKind_sum_abs_lt hka hkb h1 h2 h3 h4)]

/-- `mul` on canonical integer-kind operands evaluates exactly. -/
theorem binOpResult_int_mul {a b : Operand} {na nb : ℤ}
    (hka : IsIntKind a.kind) (hkb : IsIntKind b.kind)
    (hva : a.val = (na : ℚ)) (hsb : b.str = intToDecString nb)
    (h1 : typeMinQ a.kind ≤ (na : ℚ)) (h2 : (na : ℚ) ≤ typeMaxQ a.kind)
    (h3 : typeMinQ b.kind ≤ (nb : ℚ)) (h4 : (nb : ℚ) ≤ typeMaxQ b.kind) :
    binOpResult .mul a b =
      createOperand (promote a.kind b.kind) (cppToStringLD ((na * nb : ℤ) : ℚ)) := by
  have hparse : parseDec b.str = some ((nb : ℚ)) := by
    rw [hsb]
    exact parseDec_intToDecString nb
  have hrnd : roundLD ((nb : ℚ)) = (nb : ℚ) := roundLD_intCast (intKind_abs_lt hkb h3 h4)
  rw [binOpResult_parse_some hparse, if_neg (by simp), hrnd, hva]
  show createOperand (promote a.kind b.kind)
    (cppToStringLD (roundLD ((na : ℚ) * (nb : ℚ)))) = _
  have hcast : ((na : ℚ) * (nb : ℚ)) = ((na * nb : ℤ) : ℚ) := by push_cast; ring
  rw [hcast, roundLD_intCast (intKind_mul_abs_lt hka hkb h1 h2 h3 h4)]

/-! ## The claims

Concrete evaluations below unfold the Batteries rational-number kernel
(`Rat.add`, `Rat.mul`, `Rat.sub`, `Rat.inv`), which is marked irreducible for
`simp`'s benefit; evaluation by `rfl`/`decide` needs it reducible. -/

attribute [local semireducible] Rat.add Rat.mul Rat.sub Rat.inv Rat.ofScientific

set_option maxRecDepth 10000

set_option maxHeartbeats 1000000

/-- C1: For the program `push int32(42)\npush int32(33)\nadd\ndump\nexit` run
in fail-fast, non-interactive mode, the dump command prints the single line
`75` and the run completes successfully: no error is surfaced and the stack
is cleaned up. -/
theorem C1_example_run :
    runProgram ("push int32(42)\npush int32(33)\nadd\ndump\nexit") false =
      ⟨['7', '5', '\n'], [], none⟩ := rfl

/-- C2: Executing the exit command sets the run state's exit flag, writes
nothing, raises nothing and leaves the stack unchanged; and once the flag is
set the machine executes no further command: on `pre ++ exit :: post` the
execution result never depends on `post`. -/
theorem C2_exit_semantics :
    (∀ st : List Operand, execCmd .exitC st = ⟨st, [], true, none⟩) ∧
    (∀ (pre post : List Cmd) (st : List Operand),
      execCmds (pre ++ .exitC :: post) st = execCmds (pre ++ [.exitC]) st) :=
  ⟨fun _ => rfl, execCmds_stops_at_exit⟩

/-- C3: A program whose token stream contains no `EXIT` token and parses to
the end without error fails with the missing-exit `SyntaxException` — the
absence is reported only after the whole parse loop completes, so the run
surfaces exactly `Program must end with 'exit' instruction`. -/
theorem C3_missing_exit (text : String) (ts : List Token) (cmds : List Cmd)
    (hasExit : Bool)
    (htok : tokenize text false = .ok ts)
    (hno : ∀ t ∈ ts, t.type ≠ TokType.EXIT)
    (hloop : parseLoop (ts.length + 1) (skipNewlines ts) [] false = .ok (cmds, hasExit)) :
    runProgram text false = ⟨[], [], some (.syntaxErr missingExitParseMsg)⟩ := by
  have hflag : hasExit = false := by
    cases hasExit
    · rfl
    · rcases parseLoop_exit _ _ _ _ _ hloop with hb | ⟨t, ht, hte⟩
      · exact Bool.noConfusion hb
      · exact absurd hte (hno t (skipNewlines_mem _ t ht))
  subst hflag
  have hpt : parseTokens ts = .error (.syntaxErr missingExitParseMsg) := by
    unfold parseTokens
    rw [hloop]
    rfl
  unfold runProgram
  rw [htok]
  show (match parseTokens ts with
    | Except.error e => ({ out := [], finalStack := [], err := some e } : RunRes)
    | Except.ok cs => runCmds cs) = _
  rw [hpt]

/-- C3 witness: the one-instruction program `pop` (no `exit` anywhere)
tokenizes and parses cleanly and the run fails with the missing-exit
message. -/
theorem C3_missing_exit_witness :
    (∀ t ∈ [(⟨.POP, "pop", 1, 2⟩ : Token), ⟨.END_FILE, "", 1, 4⟩],
        t.type ≠ TokType.EXIT) ∧
      runProgram ("pop") false = ⟨[], [], some (.syntaxErr missingExitParseMsg)⟩ :=
  ⟨by decide,
    C3_missing_exit "pop" [⟨.POP, "pop", 1, 2⟩, ⟨.END_FILE, "", 1, 4⟩] [Cmd.pop] false
      (by rfl) (by decide) (by rfl)⟩

/-- C4 (amended): `PrintCommand::execute` on a non-empty stack whose top is
an `Int8` operand writes the operand's numeric value as one raw character
*followed by a newline* (the `<< std::endl` of Commands.cpp line 243), and
leaves the stack unchanged. -/
theorem C4_print_newline (top : Operand) (rest : List Operand)
    (hk : top.kind = OpKind.int8) :
    execCmd .print (top :: rest) =
      ⟨top :: rest, [Char.ofNat (((stoiInt top.str) % 256).toNat), '\n'], false, none⟩ := by
  simp only [execCmd]
  rw [if_neg (by simp [hk])]

/-- C4 witness: printing an `Int8` holding 75 writes `K` and a newline. -/
theorem C4_print_witness :
    execCmd .print [⟨.int8, 75, "75"⟩] =
      ⟨[⟨.int8, 75, "75"⟩], [Char.ofNat (((stoiInt ("75")) % 256).toNat), '\n'],
        false, none⟩ :=
  C4_print_newline ⟨.int8, 75, "75"⟩ [] rfl

/-- C4 counterexample: the claim says print writes *exactly one* character
with *no added newline*; on an `Int8` holding 75 the output is not the
single character — a newline is appended. -/
theorem C4_print_cex :
    (execCmd .print [⟨.int8, 75, "75"⟩]).out ≠
      [Char.ofNat (((stoiInt ("75")) % 256).toNat)] := by decide

/-- C5: Every successful arithmetic operation yields an operand of kind
`promote a.kind b.kind`; that kind is the precision-maximum of the two
kinds, and a precision tie keeps the left operand's kind. -/
theorem C5_promotion (aop : ArithOp) (a b r : Operand)
    (h : binOpResult aop a b = .ok r) :
    r.kind = promote a.kind b.kind ∧
      precision (promote a.kind b.kind) = max (precision a.kind) (precision b.kind) ∧
      (precision a.kind = precision b.kind → promote a.kind b.kind = a.kind) := by
  refine ⟨createOperand_kind (binOpResult_ok_create h), ?_, ?_⟩
  · unfold promote
    split_ifs with hc
    · exact (max_eq_left hc).symm
    · exact (max_eq_right (le_of_not_le hc)).symm
  · intro he
    unfold promote
    rw [if_pos he.ge]

/-- C5 witness: `int8(1) + int32(2)` succeeds with an `Int32` result, the
precision-maximum of the two kinds. -/
theorem C5_promotion_witness :
    binOpResult .add ⟨.int8, 1, "1"⟩ ⟨.int32, 2, "2"⟩ = .ok ⟨.int32, 3, "3"⟩ ∧
      ((⟨.int32, 3, "3"⟩ : Operand).kind =
          promote (⟨.int8, 1, "1"⟩ : Operand).kind (⟨.int32, 2, "2"⟩ : Operand).kind ∧
        precision (promote (⟨.int8, 1, "1"⟩ : Operand).kind
            (⟨.int32, 2, "2"⟩ : Operand).kind) =
          max (precision (⟨.int8, 1, "1"⟩ : Operand).kind)
            (precision (⟨.int32, 2, "2"⟩ : Operand).kind) ∧
        (precision (⟨.int8, 1, "1"⟩ : Operand).kind =
            precision (⟨.int32, 2, "2"⟩ : Operand).kind →
          promote (⟨.int8, 1, "1"⟩ : Operand).kind (⟨.int32, 2, "2"⟩ : Operand).kind =
            (⟨.int8, 1, "1"⟩ : Operand).kind)) :=
  ⟨by rfl, C5_promotion .add ⟨.int8, 1, "1"⟩ ⟨.int32, 2, "2"⟩ ⟨.int32, 3, "3"⟩ (by rfl)⟩

/-- C6: A `div` or `mod` on a stack with at least two operands whose top
(right-hand) operand's canonical text reads as zero (after extended-precision
rounding, the comparison `rightValue == 0.0`) fails with DivisionByZero
before any division is evaluated, leaving exactly the two popped operands
off the stack and pushing nothing. -/
theorem C6_div_mod_zero (aop : ArithOp) (hop : aop = .div ∨ aop = .mod)
    (b a : Operand) (rest : List Operand) (r0 : ℚ)
    (hp : parseDec b.str = some r0) (hz : roundLD r0 = 0) :
    execCmd (.arith aop) (b :: a :: rest) =
      ⟨rest, [], false, some (.divZero ("Division by zero error."))⟩ := by
  have hb : binOpResult aop a b = .error (.divZero ("Division by zero error.")) := by
    rw [binOpResult_parse_some hp, if_pos ⟨hop, hz⟩]
  show (match binOpResult aop a b with
    | .ok r => (⟨r :: rest, [], false, none⟩ : ExecRes)
    | .error e => ⟨rest, [], false, some e⟩) = _
  rw [hb]

/-- C6 witness: `5 div 0` on `Int8` operands fails with DivisionByZero and
leaves the empty stack. -/
theorem C6_div_mod_zero_witness :
    execCmd (.arith .div) [⟨.int8, 0, "0"⟩, ⟨.int8, 5, "5"⟩] =
      ⟨[], [], false, some (.divZero ("Division by zero error."))⟩ :=
  C6_div_mod_zero .div (Or.inl rfl) ⟨.int8, 0, "0"⟩ ⟨.int8, 5, "5"⟩ [] 0
    (by rfl) (by rfl)

/-- C7 (amended): the factory round-trip `createOperand(k, toString(op))`
returns `op` itself for every operand an integer-kind factory call ever
produced.  (For the floating kinds the round-trip can fail outright:
see the counterexample.) -/
theorem C7_roundtrip_int (k : OpKind) (hk : IsIntKind k) (text : String)
    (op : Operand) (h : createOperand k text = .ok op) :
    createOperand k op.str = .ok op := by
  obtain ⟨n, hop, h1, h2⟩ := createOperand_intShape hk h
  subst hop
  exact createOperand_intCanonical hk h1 h2

/-- C7 witness: `int8` of `42` round-trips through its canonical text. -/
theorem C7_roundtrip_int_witness :
    IsIntKind OpKind.int8 ∧
      createOperand .int8 ("42") = .ok ⟨.int8, 42, "42"⟩ ∧
      createOperand .int8 ((⟨.int8, 42, "42"⟩ : Operand).str) = .ok ⟨.int8, 42, "42"⟩ :=
  ⟨Or.inl rfl, by rfl,
    C7_roundtrip_int .int8 (Or.inl rfl) "42" ⟨.int8, 42, "42"⟩ (by rfl)⟩

/-- C7 counterexample: for `Double` and the 309-digit decimal text denoting
exactly `1.7976931348623157e308` (representable: it lies below `DBL_MAX`
after rounding — in fact it rounds *to* `DBL_MAX`), the factory succeeds and
renders the canonical text `1.797693134862316e+308` (16 significant digits),
but re-running the factory on that text raises an OverflowException: the
16-digit rendering re-reads above `DBL_MAX`.  The round-trip is not
value-equal — it does not even succeed. -/
theorem C7_roundtrip_cex :
    createOperand .double dblMaxText = .ok dblMaxOp ∧
      dblMaxOp.str = dblMaxStr ∧
      isOverflowResult (createOperand .double dblMaxStr) = true :=
  ⟨rfl, rfl, rfl⟩

/-- C8 (amended): in fail-fast mode the execution phase of
`VirtualMachine::run` reaches `cleanupStack()` only on the non-throwing
path: a run that surfaces no error returns with the stack emptied, but a
run that surfaces an error returns with the stack exactly as execution left
it (the throw at the end of the `catch` block re-raises *before* the
`cleanupStack()` call at the end of `run`). -/
theorem C8_cleanup (cmds : List Cmd) :
    ((runCmds cmds).err = none → (runCmds cmds).finalStack = []) ∧
    (∀ e, (runCmds cmds).err = some e →
      (runCmds cmds).finalStack = (execCmds cmds []).stack) :=
  runCmds_cleanup cmds

/-- C8 counterexample: the claim says every aborting run leaves the stack
empty before the error is surfaced; but `push int32(1)\nadd\nexit` aborts
on `add` with one operand still on the stack, and the surfaced state holds
that non-empty stack. -/
theorem C8_cleanup_cex :
    runProgram ("push int32(1)\nadd\nexit") false =
      ⟨[], [⟨.int32, 1, "1"⟩],
        some (.insufficient ("Add requires at least 2 values on stack"))⟩ ∧
      ([(⟨.int32, 1, "1"⟩ : Operand)] : List Operand) ≠ [] :=
  ⟨rfl, by simp⟩

/-- C9: every operand the factory returns satisfies the bounds invariant of
its kind, and every command preserves the invariant stack-wide (its own
parsed operands being factory products), so after every command every
operand on the stack lies within `[min(kind), max(kind)]`. -/
theorem C9_bounds_invariant :
    (∀ (k : OpKind) (text : String) (op : Operand),
        createOperand k text = .ok op → InBounds op) ∧
    (∀ (c : Cmd) (st : List Operand),
        (∀ op ∈ cmdOperands c, InBounds op) → (∀ op ∈ st, InBounds op) →
        ∀ op ∈ (execCmd c st).stack, InBounds op) :=
  ⟨fun _ _ _ h => createOperand_inBounds h, execCmd_preserves_inBounds⟩

/-- C10 (amended): addition and multiplication are commutative — equal kind
and equal canonical text, indeed equal factory result — whenever both
operands are of integer kinds (in their canonical factory form).  (For
floating kinds commutativity fails observably: see the counterexample.) -/
theorem C10_comm_int (a b : Operand) (na nb : ℤ)
    (hka : IsIntKind a.kind) (hkb : IsIntKind b.kind)
    (hca : a.val = (na : ℚ) ∧ a.str = intToDecString na ∧
      typeMinQ a.kind ≤ (na : ℚ) ∧ (na : ℚ) ≤ typeMaxQ a.kind)
    (hcb : b.val = (nb : ℚ) ∧ b.str = intToDecString nb ∧
      typeMinQ b.kind ≤ (nb : ℚ) ∧ (nb : ℚ) ≤ typeMaxQ b.kind) :
    binOpResult .add a b = binOpResult .add b a ∧
      binOpResult .mul a b = binOpResult .mul b a := by
  obtain ⟨hva, hsa, ha1, ha2⟩ := hca
  obtain ⟨hvb, hsb, hb1, hb2⟩ := hcb
  constructor
  · rw [binOpResult_int_add hka hkb hva hsb ha1 ha2 hb1 hb2,
      binOpResult_int_add hkb hka hvb hsa hb1 hb2 ha1 ha2,
      promote_comm a.kind b.kind, Int.add_comm na nb]
  · rw [binOpResult_int_mul hka hkb hva hsb ha1 ha2 hb1 hb2,
      binOpResult_int_mul hkb hka hvb hsa hb1 hb2 ha1 ha2,
      promote_comm a.kind b.kind, Int.mul_comm na nb]

/-- C10 witness: `int8(3)` and `int16(5)` commute under both `add` and
`mul`. -/
theorem C10_comm_int_witness :
    binOpResult .add ⟨.int8, 3, "3"⟩ ⟨.int16, 5, "5"⟩ =
      binOpResult .add ⟨.int16, 5, "5"⟩ ⟨.int8, 3, "3"⟩ ∧
    binOpResult .mul ⟨.int8, 3, "3"⟩ ⟨.int16, 5, "5"⟩ =
      binOpResult .mul ⟨.int16, 5, "5"⟩ ⟨.int8, 3, "3"⟩ :=
  C10_comm_int ⟨.int8, 3, "3"⟩ ⟨.int16, 5, "5"⟩ 3 5 (Or.inl rfl) (Or.inr (Or.inl rfl))
    ⟨by rfl, by rfl, by decide, by decide⟩ ⟨by rfl, by rfl, by decide, by decide⟩

/-- C10 counterexample: two factory-produced `Double` operands whose sum
depends on the order.  `a` holds `10^20 + 16384` but renders as `1e+20`
(16 significant digits); `b` holds `-10^20` and re-reads exactly.  In
`a + b` the left value is used natively and the right is re-parsed from its
text, giving `16384`; in `b + a` the re-parsed right operand loses the
`+16384`, giving `0`.  The results differ in canonical text. -/
theorem C10_comm_cex :
    createOperand .double ("100000000000000016384") = .ok lossyOpA ∧
      createOperand .double ("-100000000000000000000") = .ok lossyOpB ∧
      binOpResult .add lossyOpA lossyOpB = .ok ⟨.double, 16384, "16384"⟩ ∧
      binOpResult .add lossyOpB lossyOpA = .ok ⟨.double, 0, "0"⟩ ∧
      ("16384" : String) ≠ ("0" : String) :=
  ⟨rfl, rfl, rfl, rfl, by decide⟩

end AbstractVM
